import Mathlib

/-
Verification of the CloudCannon configuration loader (src/loader.ts).

The loader merges a root configuration tree with configuration fragments
loaded from files matched by glob patterns.  This development is a shallow
embedding of loader.ts:

* JavaScript values are modelled by the inductive type `JSON`.  Objects are
  insertion-ordered association lists, matching JavaScript's key ordering
  for string keys; property assignment updates an existing key in place and
  otherwise appends.
* The two caller-supplied collaborators are modelled by the `Env` structure.
  `loadConfigFile` returns `Option JSON`: `none` models a thrown fault
  (I/O or parse error); `some JSON.null` models a null/undefined payload.
* The mutable fields of the ConfigurationLoader class are threaded through
  every function as a `LoaderState` value.  The `visited` Set used for cycle
  detection is threaded as a `List String` in insertion order (the source
  mutates one shared Set by reference; the state-passing translation returns
  the updated list to the caller, which is equivalent because the tree of
  objects produced by JSON deep-copying contains no aliasing).
* `matchingFiles.sort((a, b) => a.localeCompare(b))` is modelled as a
  stable insertion sort by code-point order (`strLtb`).  The comparator only
  fixes which path counts as earlier; all theorems below are stated relative
  to this order.
* The recursive walk over structure values and inputs is driven by an
  explicit `fuel` argument; when fuel runs out the walker returns its
  arguments unchanged.  The source recursion terminates because every chain
  visits each file at most once, so for any concrete run a large enough fuel
  computes exactly the source behaviour, and "no-op" theorems hold for every
  fuel including zero.
* `LoaderState.findFilesCalls` is specification-only instrumentation: it
  records the exact argument passed to the `findFilesMatchingGlobs`
  collaborator on each call (loader.ts line 316 passes the raw glob array
  unmodified).  No definition reads it back.
-/

namespace Loader

/-- JavaScript values as produced by JSON parsing.  Objects keep their keys
in insertion order, as JavaScript objects do for string keys. -/
inductive JSON where
  | null
  | bool (b : Bool)
  | num (n : Int)
  | str (s : String)
  | arr (elems : List JSON)
  | obj (entries : List (String × JSON))

/-- Code-point comparison of character lists, used to model
`a.localeCompare(b) < 0` on paths. -/
def charListLt : List Char → List Char → Bool
  | [], [] => false
  | [], _ :: _ => true
  | _ :: _, [] => false
  | a :: as, b :: bs => a < b || (a == b && charListLt as bs)

/-- Code-point "less than" on strings (the model of `localeCompare` order). -/
def strLtb (a b : String) : Bool := charListLt a.data b.data

/-- The source test `pattern.startsWith('!')` (a one-character prefix test). -/
def startsWithBang (s : String) : Bool :=
  match s.data with
  | c :: _ => c == '!'
  | [] => false

/-- Property read `o[k]` on a JavaScript object: the value at the first
matching key, or `none` when the key is absent (i.e. `undefined`). -/
def jsGet {α : Type} : List (String × α) → String → Option α
  | [], _ => none
  | (k', v) :: rest, k => if k' = k then some v else jsGet rest k

/-- Property assignment `o[k] = v` on a JavaScript object: updates an
existing key in place (keeping its position), otherwise appends. -/
def jsSet {α : Type} : List (String × α) → String → α → List (String × α)
  | [], k, v => [(k, v)]
  | (k', v') :: rest, k, v =>
      if k' = k then (k, v) :: rest else (k', v') :: jsSet rest k v

/-- Property deletion `delete o[k]`. -/
def jsDelete {α : Type} : List (String × α) → String → List (String × α)
  | [], _ => []
  | (k', v') :: rest, k =>
      if k' = k then jsDelete rest k else (k', v') :: jsDelete rest k

/-- The `'k' in o` operator: key presence regardless of value. -/
def jsHasKey {α : Type} (l : List (String × α)) (k : String) : Bool :=
  (jsGet l k).isSome

/-- JavaScript truthiness of a JSON value (`NaN` cannot arise here because
numbers never result from arithmetic in the loader). -/
def JSON.truthy : JSON → Bool
  | .null => false
  | .bool b => b
  | .num n => n != 0
  | .str s => s != ""
  | .arr _ => true
  | .obj _ => true

/-- Truthiness of a possibly-absent property (`undefined` is falsy). -/
def truthyOpt : Option JSON → Bool
  | none => false
  | some v => v.truthy

/-- The `isObject` helper of loader.ts: a non-null, non-array object. -/
def JSON.isObj : JSON → Bool
  | .obj _ => true
  | _ => false

/-- Own enumerable string-keyed entries, as used by object spread `{...v}`
and `Object.entries`.  Arrays and strings expose index keys; primitives
expose nothing. -/
def JSON.spreadEntries : JSON → List (String × JSON)
  | .obj entries => entries
  | .arr elems => elems.enum.map (fun p => (toString p.1, p.2))
  | .str s => s.data.enum.map (fun p => (toString p.1, JSON.str (String.mk [p.2])))
  | _ => []

/-- Array spread `[...v]`.  A truthy value that is neither an array nor a
string is not iterable and makes the source throw a TypeError; that corner
is modelled as the empty list and is not exercised by any theorem below. -/
def JSON.iterElems : JSON → List JSON
  | .arr elems => elems
  | .str s => s.data.map (fun c => JSON.str (String.mk [c]))
  | _ => []

/-- The `x || d` defaulting used on merge targets: keep `x` when present and
truthy, otherwise use the default `d`. -/
def orDefault : Option JSON → JSON → JSON
  | some v, d => if v.truthy then v else d
  | none, d => d

/-- The closed enumeration of reference-key types (types.ts GlobTypeKey). -/
inductive GlobTypeKey where
  | structuresFromGlob
  | valuesFromGlob
  | snippetsFromGlob
  | snippetsImportsFromGlob
  | snippetsTemplatesFromGlob
  | snippetsDefinitionsFromGlob
  | inputsFromGlob
  | editablesFromGlob
  | collectionsConfigFromGlob
  | schemasFromGlob
deriving DecidableEq, BEq, Repr

/-- The literal key string of each reference-key type. -/
def GlobTypeKey.toKeyString : GlobTypeKey → String
  | .structuresFromGlob => "_structures_from_glob"
  | .valuesFromGlob => "values_from_glob"
  | .snippetsFromGlob => "_snippets_from_glob"
  | .snippetsImportsFromGlob => "_snippets_imports_from_glob"
  | .snippetsTemplatesFromGlob => "_snippets_templates_from_glob"
  | .snippetsDefinitionsFromGlob => "_snippets_definitions_from_glob"
  | .inputsFromGlob => "_inputs_from_glob"
  | .editablesFromGlob => "_editables_from_glob"
  | .collectionsConfigFromGlob => "collections_config_from_glob"
  | .schemasFromGlob => "schemas_from_glob"

/-- All ten reference-key strings. -/
def globKeyStrings : List String :=
  ["_structures_from_glob", "values_from_glob", "_snippets_from_glob",
   "_snippets_imports_from_glob", "_snippets_templates_from_glob",
   "_snippets_definitions_from_glob", "_inputs_from_glob",
   "_editables_from_glob", "collections_config_from_glob", "schemas_from_glob"]

/-- A cycle diagnostic: the offending path and a snapshot of the chain. -/
structure CycleWarning where
  path : String
  chain : List String
deriving DecidableEq, Repr

/-- A cross-ownership diagnostic: the path, the first-claiming key and the
rejected second key. -/
structure MultipleGlobKeysWarning where
  path : String
  type1 : GlobTypeKey
  type2 : GlobTypeKey
deriving DecidableEq, Repr

/-- An array-shaped-fragment diagnostic. -/
structure ArrayValueWarning where
  path : String
deriving DecidableEq, Repr

/-- The three warning lists of GlobLoaderWarnings (types.ts). -/
structure GlobLoaderWarnings where
  cycles : List CycleWarning
  multipleGlobKeys : List MultipleGlobKeysWarning
  arrayValues : List ArrayValueWarning
deriving DecidableEq, Repr

/-- The mutable fields of the ConfigurationLoader class, threaded as a
value.  `findFilesCalls` is specification-only instrumentation (see the
header comment). -/
structure LoaderState where
  warnings : GlobLoaderWarnings
  pathsToGlobKey : List (String × GlobTypeKey)
  globKeyToPaths : GlobTypeKey → List String
  globPatterns : List String
  findFilesCalls : List (List JSON)

/-- A freshly constructed loader: empty warnings, maps and pattern set. -/
def initState : LoaderState :=
  { warnings := { cycles := [], multipleGlobKeys := [], arrayValues := [] }
    pathsToGlobKey := []
    globKeyToPaths := fun _ => []
    globPatterns := []
    findFilesCalls := [] }

/-- The two caller-supplied collaborators.  `findFilesMatchingGlobs`
receives the raw glob array as stored in the configuration (the source
passes it through with an unchecked cast); `loadConfigFile` returns `none`
when it throws. -/
structure Env where
  findFilesMatchingGlobs : List JSON → List String
  loadConfigFile : String → Option JSON

/-- One loaded fragment paired with its source path. -/
structure LoadedData where
  data : JSON
  source : String

/-- Set-insertion in insertion order (JavaScript `Set.add`). -/
def addUnique (l : List String) (x : String) : List String :=
  if l.contains x then l else l ++ [x]

/-- Record a cycle diagnostic. -/
def pushCycle (s : LoaderState) (path : String) (chain : List String) : LoaderState :=
  { s with warnings := { s.warnings with cycles := s.warnings.cycles ++ [⟨path, chain⟩] } }

/-- Record a cross-ownership diagnostic. -/
def pushMultipleGlobKeys (s : LoaderState) (path : String) (t1 t2 : GlobTypeKey) : LoaderState :=
  { s with warnings :=
      { s.warnings with multipleGlobKeys := s.warnings.multipleGlobKeys ++ [⟨path, t1, t2⟩] } }

/-- Record an array-shaped-fragment diagnostic. -/
def pushArrayValue (s : LoaderState) (path : String) : LoaderState :=
  { s with warnings := { s.warnings with arrayValues := s.warnings.arrayValues ++ [⟨path⟩] } }

/-- The `visited?.has(p)` test (false when no chain is active). -/
def visitedHas : Option (List String) → String → Bool
  | none, _ => false
  | some v, p => v.contains p

/-- The `visited?.add(p)` update (no-op when no chain is active). -/
def visitedAdd : Option (List String) → String → Option (List String)
  | none, _ => none
  | some v, p => some (addUnique v p)

/-- Write an updated local chain back into the caller's optional chain:
when the caller supplied a chain the same (mutated) Set is shared, when it
did not the local Set is discarded. -/
def mapVisited : Option (List String) → List String → Option (List String)
  | none, _ => none
  | some _, vl => some vl

/-- Stable insertion of a path into a sorted list (paths equal under the
comparator are identical strings, so stability is immaterial). -/
def insertSorted (x : String) : List String → List String
  | [] => [x]
  | y :: ys => if strLtb y x then y :: insertSorted x ys else x :: y :: ys

/-- The in-place `matchingFiles.sort((a, b) => a.localeCompare(b))`. -/
def sortPaths : List String → List String
  | [] => []
  | x :: xs => insertSorted x (sortPaths xs)

/-- Lines 340-343 and 345-362 of loader.ts: claim the path in both
ownership maps, add it to the active chain, then attempt the load.  The
claim happens before the load, so a throwing or array-shaped load still
leaves the path claimed.  The JSON.parse(JSON.stringify(data)) deep copy is
the identity on the value model. -/
def claimAndLoad (env : Env) (globKey : GlobTypeKey) (filePath : String)
    (visited : Option (List String)) (s : LoaderState) :
    Option LoadedData × Option (List String) × LoaderState :=
  let s := { s with
    pathsToGlobKey := jsSet s.pathsToGlobKey filePath globKey
    globKeyToPaths := fun k =>
      if k = globKey then addUnique (s.globKeyToPaths globKey) filePath
      else s.globKeyToPaths k }
  let visited := visitedAdd visited filePath
  match env.loadConfigFile filePath with
  | none => (none, visited, s)
  | some data =>
    match data with
    | JSON.null => (none, visited, s)
    | JSON.arr _ => (none, visited, pushArrayValue s filePath)
    | d => (some ⟨d, filePath⟩, visited, s)

/-- Lines 330-362 of loader.ts: the ownership check followed by
claim-and-load for one path (the cycle check is in the loop itself). -/
def loadOnePath (env : Env) (globKey : GlobTypeKey) (filePath : String)
    (visited : Option (List String)) (s : LoaderState) :
    Option LoadedData × Option (List String) × LoaderState :=
  match jsGet s.pathsToGlobKey filePath with
  | some existing =>
      if existing = globKey then claimAndLoad env globKey filePath visited s
      else (none, visited, pushMultipleGlobKeys s filePath existing globKey)
  | none => claimAndLoad env globKey filePath visited s

/-- The `for (const filePath of matchingFiles)` loop of loadFilesFromGlobs:
cycle check first, then ownership check and load, collecting the payloads
in order. -/
def loadFilesLoop (env : Env) (globKey : GlobTypeKey) :
    List String → Option (List String) → LoaderState →
    List LoadedData × Option (List String) × LoaderState
  | [], visited, s => ([], visited, s)
  | filePath :: rest, visited, s =>
      if visitedHas visited filePath then
        loadFilesLoop env globKey rest visited
          (pushCycle s filePath ((visited).getD []))
      else
        let r1 := loadOnePath env globKey filePath visited s
        let r2 := loadFilesLoop env globKey rest r1.2.1 r1.2.2
        (r1.1.toList ++ r2.1, r2.2.1, r2.2.2)

/-- Lines 311-366 of loader.ts (loadFilesFromGlobs): resolve the patterns
through the collaborator, sort the paths, then run the loop.  The call
argument is recorded verbatim in the specification-only log. -/
def loadFilesFromGlobs (env : Env) (globs : List JSON) (globKey : GlobTypeKey)
    (visited : Option (List String)) (s : LoaderState) :
    List LoadedData × Option (List String) × LoaderState :=
  let s := { s with findFilesCalls := s.findFilesCalls ++ [globs] }
  let matchingFiles := sortPaths (env.findFilesMatchingGlobs globs)
  loadFilesLoop env globKey matchingFiles visited s

/-- Lines 383-395 of loader.ts: merging one key of a fragment payload into
the accumulated object.  An object value is replaced by a copy carrying
the `__source__` provenance field; any other value is assigned directly. -/
def mergeEntryStep (source : String) (result : List (String × JSON))
    (entry : String × JSON) : List (String × JSON) :=
  match entry.2 with
  | JSON.obj ventries =>
      jsSet result entry.1 (JSON.obj (jsSet ventries "__source__" (JSON.str source)))
  | v => jsSet result entry.1 v

/-- Lines 368-400 of loader.ts (mergeObjectValues): start from the spread
of the base, then for each fragment in order merge each of its keys.
Later fragments overwrite earlier ones for the same key. -/
def mergeObjectValues (base : JSON) (loaded : List LoadedData) : List (String × JSON) :=
  loaded.foldl (fun result ld =>
    match ld.data with
    | JSON.obj entries => entries.foldl (mergeEntryStep ld.source) result
    | _ => result) base.spreadEntries

/-- Lines 402-442 of loader.ts (mergeArrayValues): append each fragment to
the base array, stamping `__source__` on object payloads and on object
elements of array payloads. -/
def mergeArrayValues (base : JSON) (loaded : List LoadedData) : List JSON :=
  loaded.foldl (fun result ld =>
    match ld.data with
    | JSON.arr elems =>
        result ++ elems.map (fun e =>
          match e with
          | JSON.obj entries => JSON.obj (jsSet entries "__source__" (JSON.str ld.source))
          | e => e)
    | JSON.obj entries => result ++ [JSON.obj (jsSet entries "__source__" (JSON.str ld.source))]
    | d => result ++ [d]) base.iterElems

/-- Lines 281-285 of loader.ts: every string pattern that is not negated is
added to the process-wide pattern set. -/
def addGlobPatterns : LoaderState → List JSON → LoaderState
  | s, [] => s
  | s, g :: rest =>
      addGlobPatterns
        (match g with
         | JSON.str p =>
             if startsWithBang p then s
             else { s with globPatterns := addUnique s.globPatterns p }
         | _ => s) rest

/-- Lines 264-305 of loader.ts (importFromGlobKey): when the reference key
holds an array, record its patterns, load the fragments, merge them into
the target key and delete the reference key; otherwise do nothing. -/
def importFromGlobKey (env : Env) (config : List (String × JSON)) (globKey : GlobTypeKey)
    (targetKey : String) (isArrayShaped : Bool) (visited : Option (List String))
    (s : LoaderState) :
    List (String × JSON) × Option (List String) × LoaderState :=
  match jsGet config globKey.toKeyString with
  | some (JSON.arr globs) =>
      let s := addGlobPatterns s globs
      let r := loadFilesFromGlobs env globs globKey visited s
      let config :=
        if isArrayShaped then
          jsSet config targetKey
            (JSON.arr (mergeArrayValues (orDefault (jsGet config targetKey) (JSON.arr [])) r.1))
        else
          jsSet config targetKey
            (JSON.obj (mergeObjectValues (orDefault (jsGet config targetKey) (JSON.obj [])) r.1))
      (jsDelete config globKey.toKeyString, r.2.1, r.2.2)
  | _ => (config, visited, s)

/-
The recursive walk over inputs, structures and structure values
(lines 172-262 of loader.ts).  The mutual recursion is driven by an
explicit fuel argument; at fuel zero every function returns its arguments
unchanged.  The Promise.all over sibling structure values is modelled as
sequential left-to-right processing, which realizes one legal cooperative
schedule (the source guarantees no ordering across siblings).
-/

mutual

/-- Lines 177-211 of loader.ts (processInputsKey): walk every input value
of an inputs object. -/
def processInputsKey (env : Env) :
    Nat → JSON → Option (List String) → LoaderState →
    JSON × Option (List String) × LoaderState
  | 0, inputs, visited, s => (inputs, visited, s)
  | Nat.succ fuel, inputs, visited, s =>
      match inputs with
      | JSON.obj entries =>
          let r := processInputsEntries env fuel entries visited s
          (JSON.obj r.1, r.2.1, r.2.2)
      | _ => (inputs, visited, s)

/-- The `for (const inputValue of Object.values(inputs))` loop of
processInputsKey. -/
def processInputsEntries (env : Env) :
    Nat → List (String × JSON) → Option (List String) → LoaderState →
    List (String × JSON) × Option (List String) × LoaderState
  | 0, entries, visited, s => (entries, visited, s)
  | Nat.succ _, [], visited, s => ([], visited, s)
  | Nat.succ fuel, (k, v) :: rest, visited, s =>
      let r1 := processOneInput env fuel v visited s
      let r2 := processInputsEntries env fuel rest r1.2.1 r1.2.2
      ((k, r1.1) :: r2.1, r2.2.1, r2.2.2)

/-- Lines 183-208 of loader.ts: the body of the processInputsKey loop for
one input value.  When the value has object-shaped `options.structures`, a
truthy `values_from_glob` is resolved into `values` (array-shaped), then
every element of an array-shaped `values` is processed as a structure
value.  The local chain is `visited || new Set()`: shared with the caller
when a chain is active, fresh and discarded otherwise. -/
def processOneInput (env : Env) :
    Nat → JSON → Option (List String) → LoaderState →
    JSON × Option (List String) × LoaderState
  | 0, v, visited, s => (v, visited, s)
  | Nat.succ fuel, inputValue, visited, s =>
      match inputValue with
      | JSON.obj ive =>
          match jsGet ive "options" with
          | some (JSON.obj optionsEntries) =>
              match jsGet optionsEntries "structures" with
              | some (JSON.obj structuresEntries) =>
                  let vLocal := visited.getD []
                  let r1 :=
                    if truthyOpt (jsGet structuresEntries "values_from_glob") then
                      let r := importFromGlobKey env structuresEntries
                        GlobTypeKey.valuesFromGlob "values" true (some vLocal) s
                      (r.1, r.2.1.getD [], r.2.2)
                    else (structuresEntries, vLocal, s)
                  let r2 :=
                    match jsGet r1.1 "values" with
                    | some (JSON.arr values) =>
                        let r := processStructureValuesList env fuel values r1.2.1 r1.2.2
                        (jsSet r1.1 "values" (JSON.arr r.1), r.2.1, r.2.2)
                    | _ => r1
                  let inputValue := JSON.obj (jsSet ive "options"
                    (JSON.obj (jsSet optionsEntries "structures" (JSON.obj r2.1))))
                  (inputValue, mapVisited visited r2.2.1, r2.2.2)
              | _ => (inputValue, visited, s)
          | _ => (inputValue, visited, s)
      | _ => (inputValue, visited, s)

/-- The `structures.values.map(value => processStructureValue(value,
visitedLocal))` loop, modelled sequentially. -/
def processStructureValuesList (env : Env) :
    Nat → List JSON → List String → LoaderState →
    List JSON × List String × LoaderState
  | 0, values, vLocal, s => (values, vLocal, s)
  | Nat.succ _, [], vLocal, s => ([], vLocal, s)
  | Nat.succ fuel, v :: rest, vLocal, s =>
      let r1 := processStructureValue env fuel v vLocal s
      let r2 := processStructureValuesList env fuel rest r1.2.1 r1.2.2
      (r1.1 :: r2.1, r2.2.1, r2.2.2)

/-- Lines 241-262 of loader.ts (processStructureValue): a truthy
`_inputs_from_glob` is resolved into `_inputs` (object-shaped), then a
truthy `_inputs` is walked, carrying the same chain. -/
def processStructureValue (env : Env) :
    Nat → JSON → List String → LoaderState →
    JSON × List String × LoaderState
  | 0, sv, visited, s => (sv, visited, s)
  | Nat.succ fuel, structureValue, visited, s =>
      match structureValue with
      | JSON.obj sve =>
          let r1 :=
            if truthyOpt (jsGet sve "_inputs_from_glob") then
              let r := importFromGlobKey env sve GlobTypeKey.inputsFromGlob
                "_inputs" false (some visited) s
              (r.1, r.2.1.getD [], r.2.2)
            else (sve, visited, s)
          match jsGet r1.1 "_inputs" with
          | some inputsVal =>
              if inputsVal.truthy then
                let r := processInputsKey env fuel inputsVal (some r1.2.1) r1.2.2
                (JSON.obj (jsSet r1.1 "_inputs" r.1), r.2.1.getD r1.2.1, r.2.2)
              else (JSON.obj r1.1, r1.2.1, r1.2.2)
          | none => (JSON.obj r1.1, r1.2.1, r1.2.2)
      | _ => (structureValue, visited, s)

/-- Lines 213-239 of loader.ts (processStructuresKey): walk every
structure of a structures object. -/
def processStructuresKey (env : Env) :
    Nat → JSON → Option (List String) → LoaderState →
    JSON × Option (List String) × LoaderState
  | 0, structures, visited, s => (structures, visited, s)
  | Nat.succ fuel, structures, visited, s =>
      match structures with
      | JSON.obj entries =>
          let r := processStructuresEntries env fuel entries visited s
          (JSON.obj r.1, r.2.1, r.2.2)
      | _ => (structures, visited, s)

/-- The `Object.values(structures).map(structure => ...)` loop of
processStructuresKey, modelled sequentially. -/
def processStructuresEntries (env : Env) :
    Nat → List (String × JSON) → Option (List String) → LoaderState →
    List (String × JSON) × Option (List String) × LoaderState
  | 0, entries, visited, s => (entries, visited, s)
  | Nat.succ _, [], visited, s => ([], visited, s)
  | Nat.succ fuel, (k, v) :: rest, visited, s =>
      let r1 := processOneStructure env fuel v visited s
      let r2 := processStructuresEntries env fuel rest r1.2.1 r1.2.2
      ((k, r1.1) :: r2.1, r2.2.1, r2.2.2)

/-- Lines 222-237 of loader.ts: the loop body for one structure.
`values_from_glob` is resolved unconditionally (array-shaped into
`values`), then each element of an array-shaped `values` is processed as a
structure value on the local chain. -/
def processOneStructure (env : Env) :
    Nat → JSON → Option (List String) → LoaderState →
    JSON × Option (List String) × LoaderState
  | 0, v, visited, s => (v, visited, s)
  | Nat.succ fuel, structureVal, visited, s =>
      match structureVal with
      | JSON.obj se =>
          let vLocal := visited.getD []
          let r1 := importFromGlobKey env se GlobTypeKey.valuesFromGlob
            "values" true (some vLocal) s
          let r2 :=
            match jsGet r1.1 "values" with
            | some (JSON.arr values) =>
                let r := processStructureValuesList env fuel values (r1.2.1.getD []) r1.2.2
                (jsSet r1.1 "values" (JSON.arr r.1), r.2.1, r.2.2)
            | _ => (r1.1, r1.2.1.getD [], r1.2.2)
          (JSON.obj r2.1, mapVisited visited r2.2.1, r2.2.2)
      | _ => (structureVal, visited, s)

end

/-- Run processInputsKey against the value stored at `key` (the source
passes `config[key]` by reference and the walk mutates it in place; here
the updated value is written back).  An absent key is `undefined`, on which
processInputsKey does nothing. -/
def runInputsKeyAt (env : Env) (fuel : Nat) (key : String)
    (cs : List (String × JSON) × LoaderState) : List (String × JSON) × LoaderState :=
  match jsGet cs.1 key with
  | some v =>
      let r := processInputsKey env fuel v none cs.2
      (jsSet cs.1 key r.1, r.2.2)
  | none => cs

/-- Run processStructuresKey against the value stored at `key`. -/
def runStructuresKeyAt (env : Env) (fuel : Nat) (key : String)
    (cs : List (String × JSON) × LoaderState) : List (String × JSON) × LoaderState :=
  match jsGet cs.1 key with
  | some v =>
      let r := processStructuresKey env fuel v none cs.2
      (jsSet cs.1 key r.1, r.2.2)
  | none => cs

/-- Run an object-shaped importFromGlobKey with no active chain, keeping
only the configuration and the state. -/
def importAt (env : Env) (globKey : GlobTypeKey) (targetKey : String)
    (cs : List (String × JSON) × LoaderState) : List (String × JSON) × LoaderState :=
  let r := importFromGlobKey env cs.1 globKey targetKey false none cs.2
  (r.1, r.2.2)

/-- Lines 127-139 of loader.ts: the recursion into one schema value (its
inputs and structures references and their nested walks). -/
def processOneSchema (env : Env) (fuel : Nat) (v : JSON) (s : LoaderState) :
    JSON × LoaderState :=
  match v with
  | JSON.obj sve =>
      let r := runStructuresKeyAt env fuel "_structures"
        (runInputsKeyAt env fuel "_inputs"
          (importAt env GlobTypeKey.structuresFromGlob "_structures"
            (importAt env GlobTypeKey.inputsFromGlob "_inputs" (sve, s))))
      (JSON.obj r.1, r.2)
  | _ => (v, s)

/-- The `for (const schemaValue of Object.values(collection.schemas))`
loop. -/
def processSchemaEntries (env : Env) (fuel : Nat) :
    List (String × JSON) → LoaderState → List (String × JSON) × LoaderState
  | [], s => ([], s)
  | (k, v) :: rest, s =>
      let r1 := processOneSchema env fuel v s
      let r2 := processSchemaEntries env fuel rest r1.2
      ((k, r1.1) :: r2.1, r2.2)

/-- Lines 122-142 of loader.ts: recurse into an object-shaped `schemas` of
a collection. -/
def processSchemas (env : Env) (fuel : Nat)
    (cs : List (String × JSON) × LoaderState) : List (String × JSON) × LoaderState :=
  match jsGet cs.1 "schemas" with
  | some (JSON.obj schemaEntries) =>
      let r := processSchemaEntries env fuel schemaEntries cs.2
      (jsSet cs.1 "schemas" (JSON.obj r.1), r.2)
  | _ => cs

/-- Lines 94-144 of loader.ts: the body of the collections loop for one
collection key, re-reading the collection from the current tree
(schemas_from_glob first when the key is present, then the collection's
inputs and structures references and recursions, then the schemas). -/
def processOneCollection (env : Env) (fuel : Nat) (key : String)
    (cs : List (String × JSON) × LoaderState) : List (String × JSON) × LoaderState :=
  match jsGet cs.1 "collections_config" with
  | some (JSON.obj colEntries) =>
      match jsGet colEntries key with
      | some (JSON.obj colConfig) =>
          let r := processSchemas env fuel
            (runStructuresKeyAt env fuel "_structures"
              (runInputsKeyAt env fuel "_inputs"
                (importAt env GlobTypeKey.structuresFromGlob "_structures"
                  (importAt env GlobTypeKey.inputsFromGlob "_inputs"
                    (if jsHasKey colConfig "schemas_from_glob" then
                      importAt env GlobTypeKey.schemasFromGlob "schemas" (colConfig, cs.2)
                    else (colConfig, cs.2))))))
          (jsSet cs.1 "collections_config"
            (JSON.obj (jsSet colEntries key (JSON.obj r.1))), r.2)
      | _ => cs
  | _ => cs

/-- The `for (const [collectionKey, ...] of Object.entries(...))` loop over
the snapshot of collection keys. -/
def processCollectionKeys (env : Env) (fuel : Nat) :
    List String → List (String × JSON) × LoaderState →
    List (String × JSON) × LoaderState
  | [], cs => cs
  | key :: rest, cs =>
      processCollectionKeys env fuel rest (processOneCollection env fuel key cs)

/-- Lines 91-145 of loader.ts: process nested globs in an object-shaped
collections_config. -/
def processCollections (env : Env) (fuel : Nat)
    (cs : List (String × JSON) × LoaderState) : List (String × JSON) × LoaderState :=
  match jsGet cs.1 "collections_config" with
  | some (JSON.obj colEntries) =>
      processCollectionKeys env fuel (colEntries.map Prod.fst) cs
  | _ => cs

/-- Lines 151-166 of loader.ts: the loop body for one snippet value. -/
def processOneSnippet (env : Env) (fuel : Nat) (v : JSON) (s : LoaderState) :
    JSON × LoaderState :=
  match v with
  | JSON.obj sve =>
      let r := runStructuresKeyAt env fuel "_structures"
        (runInputsKeyAt env fuel "_inputs"
          (importAt env GlobTypeKey.structuresFromGlob "_structures"
            (importAt env GlobTypeKey.inputsFromGlob "_inputs" (sve, s))))
      (JSON.obj r.1, r.2)
  | _ => (v, s)

/-- The `for (const snippetConfig of Object.values(config._snippets))`
loop. -/
def processSnippetEntries (env : Env) (fuel : Nat) :
    List (String × JSON) → LoaderState → List (String × JSON) × LoaderState
  | [], s => ([], s)
  | (k, v) :: rest, s =>
      let r1 := processOneSnippet env fuel v s
      let r2 := processSnippetEntries env fuel rest r1.2
      ((k, r1.1) :: r2.1, r2.2)

/-- Lines 147-167 of loader.ts: the snippets block; the values snapshot is
taken after the snippets-level `_inputs_from_glob` import. -/
def processSnippets (env : Env) (fuel : Nat)
    (cs : List (String × JSON) × LoaderState) : List (String × JSON) × LoaderState :=
  match jsGet cs.1 "_snippets" with
  | some (JSON.obj snipEntries) =>
      let r1 := importFromGlobKey env snipEntries GlobTypeKey.inputsFromGlob
        "_inputs" false none cs.2
      let r2 := processSnippetEntries env fuel r1.1 r1.2.2
      (jsSet cs.1 "_snippets" (JSON.obj r2.1), r2.2)
  | _ => cs

/-- Lines 56-170 of loader.ts (ConfigurationLoader.mergeConfiguration): the
fixed root-level import order, then the recursive blocks, on a freshly
reset loader state. -/
def mergeConfigurationLoader (env : Env) (fuel : Nat) (config : JSON) :
    JSON × LoaderState :=
  match config with
  | JSON.obj c0 =>
      let r := processSnippets env fuel (processCollections env fuel
        (runStructuresKeyAt env fuel "_structures"
          (runInputsKeyAt env fuel "_inputs"
            (importAt env GlobTypeKey.structuresFromGlob "_structures"
              (importAt env GlobTypeKey.inputsFromGlob "_inputs"
                (importAt env GlobTypeKey.collectionsConfigFromGlob "collections_config"
                  (importAt env GlobTypeKey.snippetsDefinitionsFromGlob "_snippets_definitions"
                    (importAt env GlobTypeKey.snippetsTemplatesFromGlob "_snippets_templates"
                      (importAt env GlobTypeKey.snippetsImportsFromGlob "_snippets_imports"
                        (importAt env GlobTypeKey.snippetsFromGlob "_snippets"
                          (c0, initState)))))))))))
      (JSON.obj r.1, r.2)
  | other => (other, initState)

/-- Lines 445-479 of loader.ts (removeDuplicateWarnings): each list is
filtered to unique entries by its natural key; chains compare by their
" → "-joined rendering. -/
def removeDuplicateWarnings (w : GlobLoaderWarnings) : GlobLoaderWarnings :=
  { cycles := w.cycles.foldl (fun acc c =>
      if acc.any (fun x => x.path == c.path &&
          String.intercalate " → " x.chain == String.intercalate " → " c.chain)
      then acc else acc ++ [c]) []
    multipleGlobKeys := w.multipleGlobKeys.foldl (fun acc m =>
      if acc.any (fun x => x.path == m.path && x.type1 == m.type1 && x.type2 == m.type2)
      then acc else acc ++ [m]) []
    arrayValues := w.arrayValues.foldl (fun acc a =>
      if acc.any (fun x => x.path == a.path) then acc else acc ++ [a]) [] }

/-- The result of the exported mergeConfiguration (types.ts GlobResult). -/
structure GlobResult where
  config : JSON
  warnings : GlobLoaderWarnings
  globPatterns : List String
  pathsToGlobKey : List (String × GlobTypeKey)
  globKeyToPaths : GlobTypeKey → List String

/-- The protective deep copy `JSON.parse(JSON.stringify(config))` of line
515.  On the value model a serialize-parse round trip is the identity. -/
def deepCopy (j : JSON) : JSON := j

/-- Lines 509-525 of loader.ts: the exported mergeConfiguration.  A fresh
loader runs on a deep copy of the caller's tree; warnings are deduplicated
once at the end. -/
def mergeConfiguration (env : Env) (fuel : Nat) (config : JSON) : GlobResult :=
  let r := mergeConfigurationLoader env fuel (deepCopy config)
  { config := r.1
    warnings := removeDuplicateWarnings r.2.warnings
    globPatterns := r.2.globPatterns
    pathsToGlobKey := r.2.pathsToGlobKey
    globKeyToPaths := r.2.globKeyToPaths }

/-
Specification-side predicates.
-/

mutual

/-- Whether a tree contains a reference key at any nesting level. -/
def hasGlobKey : JSON → Bool
  | .obj entries => hasGlobKeyEntries entries
  | .arr elems => hasGlobKeyList elems
  | _ => false

/-- Whether an object entry list contains a reference key anywhere. -/
def hasGlobKeyEntries : List (String × JSON) → Bool
  | [] => false
  | (k, v) :: rest => globKeyStrings.contains k || hasGlobKey v || hasGlobKeyEntries rest

/-- Whether any element of an array contains a reference key. -/
def hasGlobKeyList : List JSON → Bool
  | [] => false
  | v :: rest => hasGlobKey v || hasGlobKeyList rest

end

/-- Every pattern recorded in the process-wide pattern set is
non-negated (the invariant maintained by addGlobPatterns). -/
def PatOk (s : LoaderState) : Prop :=
  ∀ p, p ∈ s.globPatterns → startsWithBang p = false

/-
Concrete fixtures used by the scenario parts of the theorems below.  They
mirror the mocked collaborators of loader.test.ts.
-/

/-- Collaborators that find no files. -/
def fxEnvEmpty : Env :=
  { findFilesMatchingGlobs := fun _ => []
    loadConfigFile := fun _ => some (JSON.obj []) }

/-- Collaborators whose file loader always throws. -/
def fxEnvThrow : Env :=
  { findFilesMatchingGlobs := fun _ => ["/i/a.yml"]
    loadConfigFile := fun _ => none }

/-- A configuration whose only entry is a plain collections_config. -/
def fxCfgPlain : JSON :=
  JSON.obj [("collections_config",
    JSON.obj [("posts", JSON.obj [("path", JSON.str "content/posts")])])]

/-- The self-referencing structure-value fixture of loader.test.ts: the
fragment loaded into a structure's values carries inputs whose nested
structure options reference the same glob. -/
def fxEnvCycle : Env :=
  { findFilesMatchingGlobs := fun _ => ["/s/hero.yml"]
    loadConfigFile := fun p =>
      if p = "/s/hero.yml" then
        some (JSON.obj [("label", JSON.str "Hero"),
          ("_inputs", JSON.obj [("nested_blocks", JSON.obj [("type", JSON.str "array"),
            ("options", JSON.obj [("structures",
              JSON.obj [("values_from_glob", JSON.arr [JSON.str "/s/*.yml"])])])])])])
      else none }

/-- A root configuration with one structure populated from a glob. -/
def fxCfgCycle : JSON :=
  JSON.obj [("_structures", JSON.obj [("blocks",
    JSON.obj [("values_from_glob", JSON.arr [JSON.str "/s/*.yml"])])])]

/-- One shared file matched twice per resolution, loading object data. -/
def fxEnvMulti : Env :=
  { findFilesMatchingGlobs := fun _ => ["/sh/c.yml", "/sh/c.yml"]
    loadConfigFile := fun p =>
      if p = "/sh/c.yml" then
        some (JSON.obj [("test", JSON.obj [("type", JSON.str "text")])])
      else none }

/-- One shared file matched once per resolution, whose load throws. -/
def fxEnvThrowShared : Env :=
  { findFilesMatchingGlobs := fun _ => ["/sh/c.yml"]
    loadConfigFile := fun _ => none }

/-- A configuration with two reference keys resolving to the same file. -/
def fxCfgMulti : JSON :=
  JSON.obj [("collections_config_from_glob", JSON.arr [JSON.str "/sh/*.yml"]),
    ("_inputs_from_glob", JSON.arr [JSON.str "/sh/*.yml"])]

/-- An array-shaped fragment file, matched twice by one resolution. -/
def fxEnvArrDup : Env :=
  { findFilesMatchingGlobs := fun _ => ["/c/invalid.yml", "/c/invalid.yml"]
    loadConfigFile := fun p =>
      if p = "/c/invalid.yml" then some (JSON.arr [JSON.obj [("a", JSON.num 1)]]) else none }

/-- An array-shaped fragment file, matched once. -/
def fxEnvArr : Env :=
  { findFilesMatchingGlobs := fun _ => ["/c/invalid.yml"]
    loadConfigFile := fun p =>
      if p = "/c/invalid.yml" then some (JSON.arr [JSON.obj [("a", JSON.num 1)]]) else none }

/-- A configuration with an object-shaped reference key at the root. -/
def fxCfgObjTarget : JSON :=
  JSON.obj [("collections_config_from_glob", JSON.arr [JSON.str "/c/*.yml"])]

/-- A configuration with an array-shaped reference key (a structure's
values_from_glob). -/
def fxCfgArrTarget : JSON :=
  JSON.obj [("_structures", JSON.obj [("blocks", JSON.obj
    [("values_from_glob", JSON.arr [JSON.str "/c/*.yml"]), ("values", JSON.arr [])])])]

/-- A configuration whose only entry is an object-shaped reference key. -/
def fxCfgRefOnly : JSON :=
  JSON.obj [("collections_config_from_glob", JSON.arr [JSON.str "/i/*.yml"])]

/-- A configuration with existing target content plus a reference key. -/
def fxCfgWithBase : JSON :=
  JSON.obj [("collections_config", JSON.obj [("posts", JSON.obj [("path", JSON.str "p")])]),
    ("collections_config_from_glob", JSON.arr [JSON.str "/i/*.yml"])]

/-- A configuration holding only an editables reference key, which the
walker never visits. -/
def fxCfgEditables : JSON :=
  JSON.obj [("_editables_from_glob", JSON.arr [JSON.str "g"])]

/-- A configuration whose reference key lists a negated pattern. -/
def fxCfgNeg : JSON :=
  JSON.obj [("collections_config_from_glob",
    JSON.arr [JSON.str "/c/*.yml", JSON.str "!/c/draft.yml"])]

/-- Two fragment files sharing the key "title", returned unsorted by the
glob collaborator. -/
def fxEnvPair : Env :=
  { findFilesMatchingGlobs := fun _ => ["/c/b.yml", "/c/a.yml"]
    loadConfigFile := fun p =>
      if p = "/c/a.yml" then some (JSON.obj [("title", JSON.obj [("from", JSON.str "a")])])
      else if p = "/c/b.yml" then some (JSON.obj [("title", JSON.obj [("from", JSON.str "b")])])
      else none }

/-
Helper lemmas about the object and set primitives.
-/

theorem jsGet_jsSet_self {α : Type} (l : List (String × α)) (k : String) (v : α) :
    jsGet (jsSet l k v) k = some v := by
  induction l with
  | nil => simp [jsSet, jsGet]
  | cons hd t ih =>
      obtain ⟨k', v'⟩ := hd
      by_cases hk : k' = k
      · subst hk; simp [jsSet, jsGet]
      · simp [jsSet, jsGet, hk, ih]

theorem jsGet_jsSet_ne {α : Type} (l : List (String × α)) {k k' : String} (v : α)
    (h : k' ≠ k) : jsGet (jsSet l k' v) k = jsGet l k := by
  induction l with
  | nil => simp [jsSet, jsGet, h]
  | cons hd t ih =>
      obtain ⟨k'', v''⟩ := hd
      by_cases hk : k'' = k'
      · subst hk; simp [jsSet, jsGet, h]
      · by_cases hk2 : k'' = k
        · subst hk2; simp [jsSet, jsGet, hk]
        · simp [jsSet, jsGet, hk, hk2, ih]

theorem jsSet_self {α : Type} {l : List (String × α)} {k : String} {v : α}
    (h : jsGet l k = some v) : jsSet l k v = l := by
  induction l with
  | nil => simp [jsGet] at h
  | cons hd t ih =>
      obtain ⟨k', v'⟩ := hd
      by_cases hk : k' = k
      · subst hk
        simp [jsGet] at h
        simp [jsSet, h]
      · simp [jsGet, hk] at h
        simp [jsSet, hk, ih h]

theorem jsGet_jsDelete_self {α : Type} (l : List (String × α)) (k : String) :
    jsGet (jsDelete l k) k = none := by
  induction l with
  | nil => simp [jsDelete, jsGet]
  | cons hd t ih =>
      obtain ⟨k', v'⟩ := hd
      by_cases hk : k' = k
      · simp [jsDelete, hk, ih]
      · simp [jsDelete, jsGet, hk, ih]

theorem mem_addUnique_self (l : List String) (x : String) : x ∈ addUnique l x := by
  unfold addUnique
  by_cases h : l.contains x = true
  · rw [if_pos h]
    exact List.mem_of_elem_eq_true h
  · rw [if_neg h]
    exact List.mem_append.mpr (Or.inr (List.mem_singleton.mpr rfl))

theorem mem_addUnique_of_mem {l : List String} {y : String} (x : String) (h : y ∈ l) :
    y ∈ addUnique l x := by
  unfold addUnique
  by_cases hc : l.contains x = true
  · rw [if_pos hc]; exact h
  · rw [if_neg hc]; exact List.mem_append.mpr (Or.inl h)

theorem mem_of_mem_addUnique {l : List String} {x y : String}
    (h : y ∈ addUnique l x) : y ∈ l ∨ y = x := by
  unfold addUnique at h
  by_cases hc : l.contains x = true
  · rw [if_pos hc] at h
    exact Or.inl h
  · rw [if_neg hc] at h
    rcases List.mem_append.mp h with h1 | h1
    · exact Or.inl h1
    · exact Or.inr (List.mem_singleton.mp h1)

theorem charListLt_irrefl (l : List Char) : charListLt l l = false := by
  induction l with
  | nil => rfl
  | cons c cs ih => simp [charListLt, ih]

theorem strLtb_ne {a b : String} (h : strLtb a b = true) : a ≠ b := by
  intro he
  subst he
  rw [strLtb, charListLt_irrefl] at h
  exact Bool.false_ne_true h

theorem mapVisited_getD (vis : Option (List String)) :
    mapVisited vis (vis.getD []) = vis := by
  cases vis <;> rfl

/-
Helper lemmas about the reference-key predicate.
-/

theorem globKeyStrings_contains (g : GlobTypeKey) :
    globKeyStrings.contains g.toKeyString = true := by
  cases g <;> rfl

theorem hasGlobKeyEntries_cons {k : String} {v : JSON} {rest : List (String × JSON)} :
    hasGlobKeyEntries ((k, v) :: rest) =
      (globKeyStrings.contains k || hasGlobKey v || hasGlobKeyEntries rest) := rfl

theorem jsGet_globKey_none {l : List (String × JSON)}
    (h : hasGlobKeyEntries l = false) (g : GlobTypeKey) :
    jsGet l g.toKeyString = none := by
  induction l with
  | nil => rfl
  | cons hd t ih =>
      obtain ⟨k, v⟩ := hd
      rw [hasGlobKeyEntries_cons] at h
      simp only [Bool.or_eq_false_iff] at h
      obtain ⟨⟨hk, _⟩, ht⟩ := h
      by_cases hke : k = g.toKeyString
      · rw [hke, globKeyStrings_contains] at hk
        simp at hk
      · simp [jsGet, hke, ih ht]

theorem jsGet_hasGlobKey {l : List (String × JSON)} {k : String} {v : JSON}
    (h : hasGlobKeyEntries l = false) (hg : jsGet l k = some v) :
    hasGlobKey v = false := by
  induction l with
  | nil => simp [jsGet] at hg
  | cons hd t ih =>
      obtain ⟨k', v'⟩ := hd
      rw [hasGlobKeyEntries_cons] at h
      simp only [Bool.or_eq_false_iff] at h
      obtain ⟨⟨_, hv⟩, ht⟩ := h
      by_cases hk : k' = k
      · simp [jsGet, hk] at hg
        rw [← hg]; exact hv
      · simp [jsGet, hk] at hg
        exact ih ht hg

theorem hasGlobKeyList_mem {l : List JSON} {v : JSON}
    (h : hasGlobKeyList l = false) (hm : v ∈ l) : hasGlobKey v = false := by
  induction l with
  | nil => simp at hm
  | cons hd t ih =>
      have hlist : hasGlobKeyList (hd :: t) = (hasGlobKey hd || hasGlobKeyList t) := rfl
      rw [hlist] at h
      simp only [Bool.or_eq_false_iff] at h
      rcases List.mem_cons.mp hm with h1 | h1
      · rw [h1]; exact h.1
      · exact ih h.2 h1

/-
The importFromGlobKey no-op: an absent (or non-array) reference key leaves
everything unchanged.
-/

theorem importFromGlobKey_noop {config : List (String × JSON)} {gk : GlobTypeKey}
    (env : Env) (t : String) (b : Bool) (vis : Option (List String)) (s : LoaderState)
    (h : jsGet config gk.toKeyString = none) :
    importFromGlobKey env config gk t b vis s = (config, vis, s) := by
  simp [importFromGlobKey, h]

/-
A tree with no reference keys is left untouched by the recursive walk, for
every fuel value (at fuel zero the walker is the identity by definition).
-/

theorem hasGlobKey_obj (e : List (String × JSON)) :
    hasGlobKey (JSON.obj e) = hasGlobKeyEntries e := rfl

theorem hasGlobKey_arr (l : List JSON) :
    hasGlobKey (JSON.arr l) = hasGlobKeyList l := rfl

theorem walkerNoop (env : Env) (fuel : Nat) :
    (∀ j vis s, hasGlobKey j = false →
      processInputsKey env fuel j vis s = (j, vis, s)) ∧
    (∀ l vis s, hasGlobKeyEntries l = false →
      processInputsEntries env fuel l vis s = (l, vis, s)) ∧
    (∀ j vis s, hasGlobKey j = false →
      processOneInput env fuel j vis s = (j, vis, s)) ∧
    (∀ l vl s, hasGlobKeyList l = false →
      processStructureValuesList env fuel l vl s = (l, vl, s)) ∧
    (∀ j vl s, hasGlobKey j = false →
      processStructureValue env fuel j vl s = (j, vl, s)) ∧
    (∀ j vis s, hasGlobKey j = false →
      processStructuresKey env fuel j vis s = (j, vis, s)) ∧
    (∀ l vis s, hasGlobKeyEntries l = false →
      processStructuresEntries env fuel l vis s = (l, vis, s)) ∧
    (∀ j vis s, hasGlobKey j = false →
      processOneStructure env fuel j vis s = (j, vis, s)) := by
  induction fuel with
  | zero =>
      exact ⟨fun _ _ _ _ => rfl, fun _ _ _ _ => rfl, fun _ _ _ _ => rfl, fun _ _ _ _ => rfl,
        fun _ _ _ _ => rfl, fun _ _ _ _ => rfl, fun _ _ _ _ => rfl, fun _ _ _ _ => rfl⟩
  | succ n ih =>
      obtain ⟨ihPIK, ihPIE, ihPOI, ihPSVL, ihPSV, ihPSK, ihPSE, ihPOS⟩ := ih
      refine ⟨?_, ?_, ?_, ?_, ?_, ?_, ?_, ?_⟩
      · -- processInputsKey
        intro j vis s h
        cases j with
        | obj entries => simp [processInputsKey, ihPIE entries vis s h]
        | null => rfl
        | bool b => rfl
        | num m => rfl
        | str t => rfl
        | arr l => rfl
      · -- processInputsEntries
        intro l vis s h
        cases l with
        | nil => rfl
        | cons hd t =>
            obtain ⟨k, v⟩ := hd
            rw [hasGlobKeyEntries_cons] at h
            simp only [Bool.or_eq_false_iff] at h
            obtain ⟨⟨_, hv⟩, ht⟩ := h
            simp [processInputsEntries, ihPOI v vis s hv, ihPIE t vis s ht]
      · -- processOneInput
        intro j vis s h
        cases j with
        | obj ive =>
            have hive : hasGlobKeyEntries ive = false := h
            simp only [processOneInput]
            rcases hopt : jsGet ive "options" with _ | ov
            · simp [hopt]
            · cases ov with
              | obj oe =>
                  have hoe : hasGlobKeyEntries oe = false := jsGet_hasGlobKey hive hopt
                  rcases hstr : jsGet oe "structures" with _ | sv
                  · simp [hopt, hstr]
                  · cases sv with
                    | obj se =>
                        have hse : hasGlobKeyEntries se = false := jsGet_hasGlobKey hoe hstr
                        have hvfg : jsGet se "values_from_glob" = none :=
                          jsGet_globKey_none hse GlobTypeKey.valuesFromGlob
                        rcases hvals : jsGet se "values" with _ | vv
                        · simp [hopt, hstr, hvfg, truthyOpt, hvals, jsSet_self hstr,
                            jsSet_self hopt, mapVisited_getD]
                        · cases vv with
                          | arr values =>
                              have hvl : hasGlobKeyList values = false :=
                                jsGet_hasGlobKey hse hvals
                              simp [hopt, hstr, hvfg, truthyOpt, hvals,
                                ihPSVL values (vis.getD []) s hvl, jsSet_self hvals,
                                jsSet_self hstr, jsSet_self hopt, mapVisited_getD]
                          | null =>
                              simp [hopt, hstr, hvfg, truthyOpt, hvals, jsSet_self hstr,
                                jsSet_self hopt, mapVisited_getD]
                          | bool b =>
                              simp [hopt, hstr, hvfg, truthyOpt, hvals, jsSet_self hstr,
                                jsSet_self hopt, mapVisited_getD]
                          | num m =>
                              simp [hopt, hstr, hvfg, truthyOpt, hvals, jsSet_self hstr,
                                jsSet_self hopt, mapVisited_getD]
                          | str t =>
                              simp [hopt, hstr, hvfg, truthyOpt, hvals, jsSet_self hstr,
                                jsSet_self hopt, mapVisited_getD]
                          | obj oo =>
                              simp [hopt, hstr, hvfg, truthyOpt, hvals, jsSet_self hstr,
                                jsSet_self hopt, mapVisited_getD]
                    | null => simp [hopt, hstr]
                    | bool b => simp [hopt, hstr]
                    | num m => simp [hopt, hstr]
                    | str t => simp [hopt, hstr]
                    | arr l2 => simp [hopt, hstr]
              | null => simp [hopt]
              | bool b => simp [hopt]
              | num m => simp [hopt]
              | str t => simp [hopt]
              | arr l2 => simp [hopt]
        | null => rfl
        | bool b => rfl
        | num m => rfl
        | str t => rfl
        | arr l => rfl
      · -- processStructureValuesList
        intro l vl s h
        cases l with
        | nil => rfl
        | cons hd t =>
            have hdt : hasGlobKeyList (hd :: t) = (hasGlobKey hd || hasGlobKeyList t) := rfl
            rw [hdt] at h
            simp only [Bool.or_eq_false_iff] at h
            simp [processStructureValuesList, ihPSV hd vl s h.1, ihPSVL t vl s h.2]
      · -- processStructureValue
        intro j vl s h
        cases j with
        | obj sve =>
            have hsve : hasGlobKeyEntries sve = false := h
            have hifg : jsGet sve "_inputs_from_glob" = none :=
              jsGet_globKey_none hsve GlobTypeKey.inputsFromGlob
            simp only [processStructureValue]
            rcases hin : jsGet sve "_inputs" with _ | iv
            · simp [hifg, truthyOpt, hin]
            · have hiv : hasGlobKey iv = false := jsGet_hasGlobKey hsve hin
              by_cases htruthy : iv.truthy = true
              · simp [hifg, truthyOpt, hin, htruthy, ihPIK iv (some vl) s hiv,
                  jsSet_self hin]
              · simp [hifg, truthyOpt, hin, htruthy]
        | null => rfl
        | bool b => rfl
        | num m => rfl
        | str t => rfl
        | arr l => rfl
      · -- processStructuresKey
        intro j vis s h
        cases j with
        | obj entries => simp [processStructuresKey, ihPSE entries vis s h]
        | null => rfl
        | bool b => rfl
        | num m => rfl
        | str t => rfl
        | arr l => rfl
      · -- processStructuresEntries
        intro l vis s h
        cases l with
        | nil => rfl
        | cons hd t =>
            obtain ⟨k, v⟩ := hd
            rw [hasGlobKeyEntries_cons] at h
            simp only [Bool.or_eq_false_iff] at h
            obtain ⟨⟨_, hv⟩, ht⟩ := h
            simp [processStructuresEntries, ihPOS v vis s hv, ihPSE t vis s ht]
      · -- processOneStructure
        intro j vis s h
        cases j with
        | obj se =>
            have hse : hasGlobKeyEntries se = false := h
            have hvfg : jsGet se "values_from_glob" = none :=
              jsGet_globKey_none hse GlobTypeKey.valuesFromGlob
            have hnoop := importFromGlobKey_noop env
              "values" true (some (vis.getD [])) s
              (show jsGet se GlobTypeKey.valuesFromGlob.toKeyString = none from hvfg)
            simp only [processOneStructure]
            rcases hvals : jsGet se "values" with _ | vv
            · simp [hnoop, hvals, mapVisited_getD]
            · cases vv with
              | arr values =>
                  have hvl : hasGlobKeyList values = false := jsGet_hasGlobKey hse hvals
                  simp [hnoop, hvals, ihPSVL values (vis.getD []) s hvl,
                    jsSet_self hvals, mapVisited_getD]
              | null => simp [hnoop, hvals, mapVisited_getD]
              | bool b => simp [hnoop, hvals, mapVisited_getD]
              | num m => simp [hnoop, hvals, mapVisited_getD]
              | str t => simp [hnoop, hvals, mapVisited_getD]
              | obj oo => simp [hnoop, hvals, mapVisited_getD]
        | null => rfl
        | bool b => rfl
        | num m => rfl
        | str t => rfl
        | arr l => rfl

theorem runInputsKeyAt_noop (env : Env) (fuel : Nat) (key : String)
    {c : List (String × JSON)} (s : LoaderState) (h : hasGlobKeyEntries c = false) :
    runInputsKeyAt env fuel key (c, s) = (c, s) := by
  simp only [runInputsKeyAt]
  rcases hv : jsGet c key with _ | v
  · rfl
  · have hval : hasGlobKey v = false := jsGet_hasGlobKey h hv
    simp [(walkerNoop env fuel).1 v none s hval, jsSet_self hv]

theorem runStructuresKeyAt_noop (env : Env) (fuel : Nat) (key : String)
    {c : List (String × JSON)} (s : LoaderState) (h : hasGlobKeyEntries c = false) :
    runStructuresKeyAt env fuel key (c, s) = (c, s) := by
  simp only [runStructuresKeyAt]
  rcases hv : jsGet c key with _ | v
  · rfl
  · have hval : hasGlobKey v = false := jsGet_hasGlobKey h hv
    simp [(walkerNoop env fuel).2.2.2.2.2.1 v none s hval, jsSet_self hv]

theorem importAt_noop (env : Env) {gk : GlobTypeKey} (t : String)
    {c : List (String × JSON)} (s : LoaderState) (h : jsGet c gk.toKeyString = none) :
    importAt env gk t (c, s) = (c, s) := by
  simp [importAt, importFromGlobKey_noop env t false none s h]

theorem processOneSchema_noop (env : Env) (fuel : Nat) {v : JSON} (s : LoaderState)
    (h : hasGlobKey v = false) : processOneSchema env fuel v s = (v, s) := by
  cases v with
  | obj sve =>
      have hent0 : hasGlobKeyEntries sve = false := h
      simp [processOneSchema,
        importAt_noop env "_inputs" s (jsGet_globKey_none hent0 GlobTypeKey.inputsFromGlob),
        importAt_noop env "_structures" s
          (jsGet_globKey_none hent0 GlobTypeKey.structuresFromGlob),
        runInputsKeyAt_noop env fuel "_inputs" s hent0,
        runStructuresKeyAt_noop env fuel "_structures" s hent0]
  | null => rfl
  | bool b => rfl
  | num m => rfl
  | str t => rfl
  | arr l => rfl

theorem processSchemaEntries_noop (env : Env) (fuel : Nat) {l : List (String × JSON)}
    (s : LoaderState) (h : hasGlobKeyEntries l = false) :
    processSchemaEntries env fuel l s = (l, s) := by
  induction l generalizing s with
  | nil => rfl
  | cons hd t ih =>
      obtain ⟨k, v⟩ := hd
      rw [hasGlobKeyEntries_cons] at h
      simp only [Bool.or_eq_false_iff] at h
      simp [processSchemaEntries, processOneSchema_noop env fuel s h.1.2, ih s h.2]

theorem processSchemas_noop (env : Env) (fuel : Nat) {c : List (String × JSON)}
    (s : LoaderState) (h : hasGlobKeyEntries c = false) :
    processSchemas env fuel (c, s) = (c, s) := by
  simp only [processSchemas]
  rcases hv : jsGet c "schemas" with _ | v
  · rfl
  · cases v with
    | obj schemaEntries =>
        have hent : hasGlobKeyEntries schemaEntries = false := jsGet_hasGlobKey h hv
        simp [hv, processSchemaEntries_noop env fuel s hent, jsSet_self hv]
    | null => simp [hv]
    | bool b => simp [hv]
    | num m => simp [hv]
    | str t => simp [hv]
    | arr l => simp [hv]

theorem processOneCollection_noop (env : Env) (fuel : Nat) (key : String)
    {c : List (String × JSON)} (s : LoaderState) (h : hasGlobKeyEntries c = false) :
    processOneCollection env fuel key (c, s) = (c, s) := by
  simp only [processOneCollection]
  rcases hv : jsGet c "collections_config" with _ | v
  · rfl
  · cases v with
    | obj colEntries =>
        have hent : hasGlobKeyEntries colEntries = false := jsGet_hasGlobKey h hv
        rcases hcol : jsGet colEntries key with _ | cv
        · simp [hv, hcol]
        · cases cv with
          | obj colConfig =>
              have hcc : hasGlobKeyEntries colConfig = false := jsGet_hasGlobKey hent hcol
              have hschg : jsGet colConfig "schemas_from_glob" = none :=
                jsGet_globKey_none hcc GlobTypeKey.schemasFromGlob
              have hhk : jsHasKey colConfig "schemas_from_glob" = false := by
                simp [jsHasKey, hschg]
              simp [hv, hcol, hhk,
                importAt_noop env "_inputs" s
                  (jsGet_globKey_none hcc GlobTypeKey.inputsFromGlob),
                importAt_noop env "_structures" s
                  (jsGet_globKey_none hcc GlobTypeKey.structuresFromGlob),
                runInputsKeyAt_noop env fuel "_inputs" s hcc,
                runStructuresKeyAt_noop env fuel "_structures" s hcc,
                processSchemas_noop env fuel s hcc,
                jsSet_self hcol, jsSet_self hv]
          | null => simp [hv, hcol]
          | bool b => simp [hv, hcol]
          | num m => simp [hv, hcol]
          | str t => simp [hv, hcol]
          | arr l => simp [hv, hcol]
    | null => simp [hv]
    | bool b => simp [hv]
    | num m => simp [hv]
    | str t => simp [hv]
    | arr l => simp [hv]

theorem processCollectionKeys_noop (env : Env) (fuel : Nat) (keys : List String)
    {c : List (String × JSON)} (s : LoaderState) (h : hasGlobKeyEntries c = false) :
    processCollectionKeys env fuel keys (c, s) = (c, s) := by
  induction keys generalizing s with
  | nil => rfl
  | cons key rest ih =>
      simp [processCollectionKeys, processOneCollection_noop env fuel key s h, ih s]

theorem processCollections_noop (env : Env) (fuel : Nat)
    {c : List (String × JSON)} (s : LoaderState) (h : hasGlobKeyEntries c = false) :
    processCollections env fuel (c, s) = (c, s) := by
  simp only [processCollections]
  rcases hv : jsGet c "collections_config" with _ | v
  · rfl
  · cases v with
    | obj colEntries => simp [hv, processCollectionKeys_noop env fuel _ s h]
    | null => simp [hv]
    | bool b => simp [hv]
    | num m => simp [hv]
    | str t => simp [hv]
    | arr l => simp [hv]

theorem processOneSnippet_noop (env : Env) (fuel : Nat) {v : JSON} (s : LoaderState)
    (h : hasGlobKey v = false) : processOneSnippet env fuel v s = (v, s) := by
  cases v with
  | obj sve =>
      have hent0 : hasGlobKeyEntries sve = false := h
      simp [processOneSnippet,
        importAt_noop env "_inputs" s (jsGet_globKey_none hent0 GlobTypeKey.inputsFromGlob),
        importAt_noop env "_structures" s
          (jsGet_globKey_none hent0 GlobTypeKey.structuresFromGlob),
        runInputsKeyAt_noop env fuel "_inputs" s hent0,
        runStructuresKeyAt_noop env fuel "_structures" s hent0]
  | null => rfl
  | bool b => rfl
  | num m => rfl
  | str t => rfl
  | arr l => rfl

theorem processSnippetEntries_noop (env : Env) (fuel : Nat) {l : List (String × JSON)}
    (s : LoaderState) (h : hasGlobKeyEntries l = false) :
    processSnippetEntries env fuel l s = (l, s) := by
  induction l generalizing s with
  | nil => rfl
  | cons hd t ih =>
      obtain ⟨k, v⟩ := hd
      rw [hasGlobKeyEntries_cons] at h
      simp only [Bool.or_eq_false_iff] at h
      simp [processSnippetEntries, processOneSnippet_noop env fuel s h.1.2, ih s h.2]

theorem processSnippets_noop (env : Env) (fuel : Nat) {c : List (String × JSON)}
    (s : LoaderState) (h : hasGlobKeyEntries c = false) :
    processSnippets env fuel (c, s) = (c, s) := by
  simp only [processSnippets]
  rcases hv : jsGet c "_snippets" with _ | v
  · rfl
  · cases v with
    | obj snipEntries =>
        have hent : hasGlobKeyEntries snipEntries = false := jsGet_hasGlobKey h hv
        simp [hv, importFromGlobKey_noop env "_inputs" false none s
            (jsGet_globKey_none hent GlobTypeKey.inputsFromGlob),
          processSnippetEntries_noop env fuel s hent, jsSet_self hv]
    | null => simp [hv]
    | bool b => simp [hv]
    | num m => simp [hv]
    | str t => simp [hv]
    | arr l => simp [hv]

theorem mergeConfigurationLoader_noop (env : Env) (fuel : Nat) {config : JSON}
    (h : hasGlobKey config = false) :
    mergeConfigurationLoader env fuel config = (config, initState) := by
  cases config with
  | obj c0 =>
      have hent : hasGlobKeyEntries c0 = false := h
      simp [mergeConfigurationLoader,
        importAt_noop env "_snippets" initState
          (jsGet_globKey_none hent GlobTypeKey.snippetsFromGlob),
        importAt_noop env "_snippets_imports" initState
          (jsGet_globKey_none hent GlobTypeKey.snippetsImportsFromGlob),
        importAt_noop env "_snippets_templates" initState
          (jsGet_globKey_none hent GlobTypeKey.snippetsTemplatesFromGlob),
        importAt_noop env "_snippets_definitions" initState
          (jsGet_globKey_none hent GlobTypeKey.snippetsDefinitionsFromGlob),
        importAt_noop env "collections_config" initState
          (jsGet_globKey_none hent GlobTypeKey.collectionsConfigFromGlob),
        importAt_noop env "_inputs" initState
          (jsGet_globKey_none hent GlobTypeKey.inputsFromGlob),
        importAt_noop env "_structures" initState
          (jsGet_globKey_none hent GlobTypeKey.structuresFromGlob),
        runInputsKeyAt_noop env fuel "_inputs" initState hent,
        runStructuresKeyAt_noop env fuel "_structures" initState hent,
        processCollections_noop env fuel initState hent,
        processSnippets_noop env fuel initState hent]
  | null => rfl
  | bool b => rfl
  | num m => rfl
  | str t => rfl
  | arr l => rfl

theorem addGlobPatterns_state (globs : List JSON) (s : LoaderState) :
    (addGlobPatterns s globs).warnings = s.warnings ∧
    (addGlobPatterns s globs).pathsToGlobKey = s.pathsToGlobKey ∧
    (addGlobPatterns s globs).globKeyToPaths = s.globKeyToPaths ∧
    (addGlobPatterns s globs).findFilesCalls = s.findFilesCalls := by
  induction globs generalizing s with
  | nil => exact ⟨rfl, rfl, rfl, rfl⟩
  | cons g rest ih =>
      cases g with
      | str p =>
          by_cases hb : startsWithBang p = true
          · simpa [addGlobPatterns, hb] using ih s
          · simpa [addGlobPatterns, hb] using
              ih { s with globPatterns := addUnique s.globPatterns p }
      | null => simpa [addGlobPatterns] using ih s
      | bool b => simpa [addGlobPatterns] using ih s
      | num m => simpa [addGlobPatterns] using ih s
      | arr l => simpa [addGlobPatterns] using ih s
      | obj e => simpa [addGlobPatterns] using ih s

theorem addGlobPatterns_warnings (s : LoaderState) (globs : List JSON) :
    (addGlobPatterns s globs).warnings = s.warnings :=
  (addGlobPatterns_state globs s).1

theorem addGlobPatterns_paths (s : LoaderState) (globs : List JSON) :
    (addGlobPatterns s globs).pathsToGlobKey = s.pathsToGlobKey :=
  (addGlobPatterns_state globs s).2.1

theorem addGlobPatterns_gkpaths (s : LoaderState) (globs : List JSON) :
    (addGlobPatterns s globs).globKeyToPaths = s.globKeyToPaths :=
  (addGlobPatterns_state globs s).2.2.1

theorem addGlobPatterns_calls (s : LoaderState) (globs : List JSON) :
    (addGlobPatterns s globs).findFilesCalls = s.findFilesCalls :=
  (addGlobPatterns_state globs s).2.2.2

/-- Claim C2: a configuration with no reference keys at any nesting level
comes back structurally identical, with all three warning lists empty, for
every pair of collaborators and every fuel. -/
theorem c2_no_reference_keys_identity (env : Env) (fuel : Nat) (config : JSON)
    (h : hasGlobKey config = false) :
    (mergeConfiguration env fuel config).config = config ∧
    (mergeConfiguration env fuel config).warnings.cycles = [] ∧
    (mergeConfiguration env fuel config).warnings.multipleGlobKeys = [] ∧
    (mergeConfiguration env fuel config).warnings.arrayValues = [] := by
  simp [mergeConfiguration, deepCopy, mergeConfigurationLoader_noop env fuel h,
    removeDuplicateWarnings, initState]

/-- Witness for claim C2 at a concrete configuration and collaborators. -/
theorem c2_no_reference_keys_identity_witness :
    hasGlobKey fxCfgPlain = false ∧
    (mergeConfiguration fxEnvThrow 5 fxCfgPlain).config = fxCfgPlain ∧
    (mergeConfiguration fxEnvThrow 5 fxCfgPlain).warnings.cycles = [] ∧
    (mergeConfiguration fxEnvThrow 5 fxCfgPlain).warnings.multipleGlobKeys = [] ∧
    (mergeConfiguration fxEnvThrow 5 fxCfgPlain).warnings.arrayValues = [] := by
  have h := c2_no_reference_keys_identity fxEnvThrow 5 fxCfgPlain (by rfl)
  exact ⟨by rfl, h.1, h.2.1, h.2.2.1, h.2.2.2⟩

theorem jsGet_foldl_mergeEntryStep_not_mem (src : String)
    (entries : List (String × JSON)) (r : List (String × JSON)) (k : String)
    (h : k ∉ entries.map Prod.fst) :
    jsGet (entries.foldl (mergeEntryStep src) r) k = jsGet r k := by
  induction entries generalizing r with
  | nil => rfl
  | cons hd rest ih =>
      obtain ⟨k2, v2⟩ := hd
      simp only [List.map_cons, List.mem_cons] at h
      push_neg at h
      have hne : k2 ≠ k := fun he => h.1 he.symm
      rw [List.foldl_cons]
      rw [ih _ (h.2)]
      cases v2 with
      | obj ventries => exact jsGet_jsSet_ne r _ hne
      | null => exact jsGet_jsSet_ne r _ hne
      | bool b => exact jsGet_jsSet_ne r _ hne
      | num m => exact jsGet_jsSet_ne r _ hne
      | str t => exact jsGet_jsSet_ne r _ hne
      | arr l => exact jsGet_jsSet_ne r _ hne

theorem jsGet_foldl_mergeEntryStep_found (src : String)
    (entries : List (String × JSON)) (r : List (String × JSON)) (k : String)
    (vb : List (String × JSON)) (hnd : (entries.map Prod.fst).Nodup)
    (hk : jsGet entries k = some (JSON.obj vb)) :
    jsGet (entries.foldl (mergeEntryStep src) r) k =
      some (JSON.obj (jsSet vb "__source__" (JSON.str src))) := by
  induction entries generalizing r with
  | nil => simp [jsGet] at hk
  | cons hd rest ih =>
      obtain ⟨k2, v2⟩ := hd
      by_cases hke : k2 = k
      · subst hke
        simp only [jsGet, if_pos rfl] at hk
        obtain rfl : v2 = JSON.obj vb := Option.some.inj hk
        rw [List.foldl_cons]
        have hnotin : k2 ∉ rest.map Prod.fst := by
          simp only [List.map_cons, List.nodup_cons] at hnd
          exact hnd.1
        rw [jsGet_foldl_mergeEntryStep_not_mem src rest _ k2 hnotin]
        exact jsGet_jsSet_self r k2 _
      · simp only [jsGet, hke, if_false] at hk
        rw [List.foldl_cons]
        have hnd2 : (rest.map Prod.fst).Nodup := by
          simp only [List.map_cons, List.nodup_cons] at hnd
          exact hnd.2
        exact ih _ hnd2 hk

/-- Claim C1: for an object-shaped reference key whose patterns resolve to
exactly the two paths a and b with a before b in the sorted order, any key
present in both fragments with object-shaped values ends up in the merged
target holding b's value stamped with provenance b: the fragments are
merged in sorted-path order, and the later fragment overwrites the earlier
one for the shared key. -/
theorem c1_sorted_merge_precedence (gk : GlobTypeKey) (target a b k : String)
    (va vb ea eb : List (String × JSON)) (globs : List JSON) (env : Env)
    (henv1 : env.findFilesMatchingGlobs globs = [b, a])
    (henv2 : env.loadConfigFile a = some (JSON.obj ea))
    (henv3 : env.loadConfigFile b = some (JSON.obj eb))
    (_hka : jsGet ea k = some (JSON.obj va))
    (hkb : jsGet eb k = some (JSON.obj vb))
    (hndb : (eb.map Prod.fst).Nodup)
    (hab : strLtb a b = true) (htarget : target ≠ gk.toKeyString) :
    ∃ m, jsGet (importFromGlobKey env [(gk.toKeyString, JSON.arr globs)] gk target
        false none initState).1 target = some (JSON.obj m) ∧
      jsGet m k = some (JSON.obj (jsSet vb "__source__" (JSON.str b))) ∧
      jsGet (jsSet vb "__source__" (JSON.str b)) "__source__" =
        some (JSON.str b) := by
  have hne : a ≠ b := strLtb_ne hab
  have htarget2 : gk.toKeyString ≠ target := Ne.symm htarget
  have hres : jsGet (importFromGlobKey env [(gk.toKeyString, JSON.arr globs)] gk
      target false none initState).1 target =
      some (JSON.obj (List.foldl (mergeEntryStep b)
        (List.foldl (mergeEntryStep a) [] ea) eb)) := by
    simp [importFromGlobKey, loadFilesFromGlobs, henv1, sortPaths, insertSorted, hab,
      loadFilesLoop, visitedHas, loadOnePath, addGlobPatterns_paths, initState,
      claimAndLoad, visitedAdd, henv2, henv3, jsGet, jsSet, jsDelete, hne, htarget,
      htarget2, mergeObjectValues, orDefault, JSON.spreadEntries]
  exact ⟨_, hres,
    jsGet_foldl_mergeEntryStep_found b eb _ k vb hndb hkb,
    jsGet_jsSet_self vb "__source__" (JSON.str b)⟩

/-- Witness for claim C1 at concrete paths and payloads. -/
theorem c1_sorted_merge_precedence_witness :
    ∃ m, jsGet (importFromGlobKey fxEnvPair
        [("_inputs_from_glob", JSON.arr [JSON.str "g"])] GlobTypeKey.inputsFromGlob
        "_inputs" false none initState).1 "_inputs" = some (JSON.obj m) ∧
      jsGet m "title" = some (JSON.obj
        [("from", JSON.str "b"), ("__source__", JSON.str "/c/b.yml")]) ∧
      jsGet (jsSet [("from", JSON.str "b")] "__source__" (JSON.str "/c/b.yml"))
        "__source__" = some (JSON.str "/c/b.yml") :=
  c1_sorted_merge_precedence GlobTypeKey.inputsFromGlob "_inputs"
    "/c/a.yml" "/c/b.yml" "title" [("from", JSON.str "a")] [("from", JSON.str "b")]
    [("title", JSON.obj [("from", JSON.str "a")])]
    [("title", JSON.obj [("from", JSON.str "b")])]
    [JSON.str "g"] fxEnvPair (by rfl) (by rfl) (by rfl) (by rfl) (by rfl)
    (by decide) (by decide) (by decide)

/-- Claim C8 (amended): every reference key that the engine resolves (its
value is an array) is deleted from its containing structure once resolved.
Reference keys at locations the walker never visits, or whose value is not
an array, survive in the returned tree (see the counterexample). -/
theorem c8_resolved_reference_key_deleted (env : Env) (config : List (String × JSON))
    (gk : GlobTypeKey) (t : String) (bsh : Bool) (vis : Option (List String))
    (s : LoaderState) (globs : List JSON)
    (h : jsGet config gk.toKeyString = some (JSON.arr globs)) :
    jsGet (importFromGlobKey env config gk t bsh vis s).1 gk.toKeyString = none := by
  cases bsh <;> simp [importFromGlobKey, h, jsGet_jsDelete_self]

/-- Witness for claim C8's amended theorem: a resolved root-level
collections reference key is gone from the result. -/
theorem c8_resolved_reference_key_deleted_witness :
    jsGet (importFromGlobKey fxEnvThrow
      [("collections_config_from_glob", JSON.arr [JSON.str "/i/*.yml"])]
      GlobTypeKey.collectionsConfigFromGlob "collections_config" false none initState).1
      "collections_config_from_glob" = none :=
  c8_resolved_reference_key_deleted fxEnvThrow _
    GlobTypeKey.collectionsConfigFromGlob _ _ _ _ _ (by rfl)

/-- Counterexample to claim C8 as stated: a configuration holding only an
editables reference key (which no walker location resolves) is returned
unchanged, so the returned tree still contains a reference key. -/
theorem c8_counterexample :
    (mergeConfiguration fxEnvThrow 5 fxCfgEditables).config = fxCfgEditables ∧
    hasGlobKey (mergeConfiguration fxEnvThrow 5 fxCfgEditables).config = true :=
  ⟨rfl, rfl⟩

/-- The state after claimAndLoad: the path is claimed in both ownership
maps and added to the chain whatever the load outcome; only the
array-value warning list can grow. -/
theorem claimAndLoad_state (env : Env) (gk : GlobTypeKey) (f : String)
    (visited : Option (List String)) (s : LoaderState) :
    ∃ aw : List ArrayValueWarning,
      (claimAndLoad env gk f visited s).2.2 =
        { warnings := { cycles := s.warnings.cycles,
                        multipleGlobKeys := s.warnings.multipleGlobKeys,
                        arrayValues := s.warnings.arrayValues ++ aw },
          pathsToGlobKey := jsSet s.pathsToGlobKey f gk,
          globKeyToPaths := fun k =>
            if k = gk then addUnique (s.globKeyToPaths gk) f else s.globKeyToPaths k,
          globPatterns := s.globPatterns,
          findFilesCalls := s.findFilesCalls } ∧
      (claimAndLoad env gk f visited s).2.1 = visitedAdd visited f := by
  rcases h : env.loadConfigFile f with _ | d
  · exact ⟨[], by simp [claimAndLoad, h], by simp [claimAndLoad, h]⟩
  · cases d with
    | arr l =>
        exact ⟨[⟨f⟩], by simp [claimAndLoad, h, pushArrayValue],
          by simp [claimAndLoad, h]⟩
    | null => exact ⟨[], by simp [claimAndLoad, h], by simp [claimAndLoad, h]⟩
    | bool b => exact ⟨[], by simp [claimAndLoad, h], by simp [claimAndLoad, h]⟩
    | num m => exact ⟨[], by simp [claimAndLoad, h], by simp [claimAndLoad, h]⟩
    | str t => exact ⟨[], by simp [claimAndLoad, h], by simp [claimAndLoad, h]⟩
    | obj e => exact ⟨[], by simp [claimAndLoad, h], by simp [claimAndLoad, h]⟩

/-- The two possible outcomes of loadOnePath: the path is free (or already
owned by the same key) and claim-and-load runs, or it is owned by a
different key and a cross-ownership warning is pushed. -/
theorem loadOnePath_cases (env : Env) (gk : GlobTypeKey) (f : String)
    (visited : Option (List String)) (s : LoaderState) :
    (loadOnePath env gk f visited s = claimAndLoad env gk f visited s ∧
      (jsGet s.pathsToGlobKey f = none ∨ jsGet s.pathsToGlobKey f = some gk)) ∨
    (∃ k1, jsGet s.pathsToGlobKey f = some k1 ∧ k1 ≠ gk ∧
      loadOnePath env gk f visited s = (none, visited, pushMultipleGlobKeys s f k1 gk)) := by
  rcases hown : jsGet s.pathsToGlobKey f with _ | k1
  · exact Or.inl ⟨by simp [loadOnePath, hown], Or.inl rfl⟩
  · by_cases hk : k1 = gk
    · subst hk
      exact Or.inl ⟨by simp [loadOnePath, hown], Or.inr rfl⟩
    · exact Or.inr ⟨k1, rfl, hk, by simp [loadOnePath, hown, hk]⟩

/-- One step of the load loop in the non-cycle branch, projected to the
visited chain and the state. -/
theorem loadFilesLoop_cons_step (env : Env) (gk : GlobTypeKey) (f : String)
    (rest : List String) (visited : Option (List String)) (s : LoaderState)
    (hc : ¬ visitedHas visited f = true) :
    (loadFilesLoop env gk (f :: rest) visited s).2.1 =
      (loadFilesLoop env gk rest (loadOnePath env gk f visited s).2.1
        (loadOnePath env gk f visited s).2.2).2.1 ∧
    (loadFilesLoop env gk (f :: rest) visited s).2.2 =
      (loadFilesLoop env gk rest (loadOnePath env gk f visited s).2.1
        (loadOnePath env gk f visited s).2.2).2.2 ∧
    (loadFilesLoop env gk (f :: rest) visited s).1 =
      (loadOnePath env gk f visited s).1.toList ++
        (loadFilesLoop env gk rest (loadOnePath env gk f visited s).2.1
          (loadOnePath env gk f visited s).2.2).1 := by
  refine ⟨?_, ?_, ?_⟩ <;> simp [loadFilesLoop, hc]

/-- Warnings, ownership claims and chain contents only accumulate across
the load loop. -/
theorem loadFilesLoop_mono (env : Env) (gk : GlobTypeKey) (files : List String) :
    ∀ (visited : Option (List String)) (s : LoaderState),
    (∀ w, w ∈ s.warnings.cycles →
        w ∈ (loadFilesLoop env gk files visited s).2.2.warnings.cycles) ∧
    (∀ w, w ∈ s.warnings.multipleGlobKeys →
        w ∈ (loadFilesLoop env gk files visited s).2.2.warnings.multipleGlobKeys) ∧
    (∀ w, w ∈ s.warnings.arrayValues →
        w ∈ (loadFilesLoop env gk files visited s).2.2.warnings.arrayValues) ∧
    (∀ p k1, jsGet s.pathsToGlobKey p = some k1 →
        jsGet (loadFilesLoop env gk files visited s).2.2.pathsToGlobKey p = some k1) ∧
    (∀ k p, p ∈ s.globKeyToPaths k →
        p ∈ (loadFilesLoop env gk files visited s).2.2.globKeyToPaths k) ∧
    (∀ v, visited = some v →
        ∃ v', (loadFilesLoop env gk files visited s).2.1 = some v' ∧
          ∀ x, x ∈ v → x ∈ v') := by
  induction files with
  | nil =>
      intro visited s
      exact ⟨fun w h => h, fun w h => h, fun w h => h, fun p k1 h => h,
        fun k p h => h, fun v hv => ⟨v, hv, fun x hx => hx⟩⟩
  | cons f rest ih =>
      intro visited s
      by_cases hc : visitedHas visited f = true
      · have hstep : loadFilesLoop env gk (f :: rest) visited s =
            loadFilesLoop env gk rest visited (pushCycle s f (visited.getD [])) := by
          simp [loadFilesLoop, hc]
        rw [hstep]
        obtain ⟨m1, m2, m3, m4, m5, m6⟩ := ih visited (pushCycle s f (visited.getD []))
        exact ⟨fun w h => m1 w (List.mem_append_left _ h),
          fun w h => m2 w h, fun w h => m3 w h, m4, m5, m6⟩
      · obtain ⟨hv0, hs0, _⟩ := loadFilesLoop_cons_step env gk f rest visited s hc
        rcases loadOnePath_cases env gk f visited s with ⟨heq, hclaim⟩ |
          ⟨k1, hown, hk, heq⟩
        · obtain ⟨aw, hs1, hv1⟩ := claimAndLoad_state env gk f visited s
          rw [heq, hs1, hv1] at hv0 hs0
          obtain ⟨m1, m2, m3, m4, m5, m6⟩ := ih (visitedAdd visited f) _
          rw [hv0, hs0]
          refine ⟨fun w h => m1 w h, fun w h => m2 w h,
            fun w h => m3 w (List.mem_append_left _ h), ?_, ?_, ?_⟩
          · intro p kk h
            apply m4
            show jsGet (jsSet s.pathsToGlobKey f gk) p = some kk
            by_cases hp : p = f
            · subst hp
              rcases hclaim with hcl | hcl
              · rw [hcl] at h; cases h
              · rw [hcl] at h
                rw [jsGet_jsSet_self]
                exact h.symm ▸ rfl
            · rw [jsGet_jsSet_ne s.pathsToGlobKey gk (Ne.symm hp)]
              exact h
          · intro k p h
            apply m5
            show p ∈ (if k = gk then addUnique (s.globKeyToPaths gk) f
              else s.globKeyToPaths k)
            by_cases hkk : k = gk
            · subst hkk
              rw [if_pos rfl]
              exact mem_addUnique_of_mem f h
            · rw [if_neg hkk]
              exact h
          · intro v hv
            have hva : visitedAdd visited f = some (addUnique v f) := by
              rw [hv]; rfl
            obtain ⟨v', hv', hsub⟩ := m6 (addUnique v f) hva
            exact ⟨v', hv', fun x hx => hsub x (mem_addUnique_of_mem f hx)⟩
        · rw [heq] at hv0 hs0
          obtain ⟨m1, m2, m3, m4, m5, m6⟩ := ih visited (pushMultipleGlobKeys s f k1 gk)
          rw [hv0, hs0]
          exact ⟨fun w h => m1 w h, fun w h => m2 w (List.mem_append_left _ h),
            fun w h => m3 w h, m4, m5, m6⟩

/-- A payload produced by claimAndLoad comes from a successful,
non-null, non-array load of exactly that path. -/
theorem claimAndLoad_payload (env : Env) (gk : GlobTypeKey) (f : String)
    (visited : Option (List String)) (s : LoaderState) {ld : LoadedData}
    (h : (claimAndLoad env gk f visited s).1 = some ld) :
    ld.source = f ∧ env.loadConfigFile f = some ld.data ∧
    ld.data ≠ JSON.null ∧ ∀ l, ld.data ≠ JSON.arr l := by
  rcases hl : env.loadConfigFile f with _ | d
  · simp [claimAndLoad, hl] at h
  · cases d with
    | null => simp [claimAndLoad, hl] at h
    | arr l => simp [claimAndLoad, hl] at h
    | bool b =>
        simp [claimAndLoad, hl] at h
        rw [← h]
        simp [hl]
    | num m =>
        simp [claimAndLoad, hl] at h
        rw [← h]
        simp [hl]
    | str t =>
        simp [claimAndLoad, hl] at h
        rw [← h]
        simp [hl]
    | obj e =>
        simp [claimAndLoad, hl] at h
        rw [← h]
        simp [hl]

/-- When the loaded payload is array-shaped, claimAndLoad records exactly
one array-value diagnostic for the path and produces no payload. -/
theorem claimAndLoad_array (env : Env) (gk : GlobTypeKey) (f : String)
    (visited : Option (List String)) (s : LoaderState) {l : List JSON}
    (h : env.loadConfigFile f = some (JSON.arr l)) :
    (claimAndLoad env gk f visited s).1 = none ∧
    (claimAndLoad env gk f visited s).2.2.warnings.arrayValues =
      s.warnings.arrayValues ++ [⟨f⟩] := by
  constructor <;> simp [claimAndLoad, h, pushArrayValue]

theorem visited_not_mem {visited : Option (List String)} {f : String}
    (hc : ¬ visitedHas visited f = true) :
    ∀ v, visited = some v → f ∉ v := by
  intro v hv hm
  rw [hv] at hc
  exact hc (List.elem_eq_true_of_mem hm)

/-- Every payload returned by the load loop comes from a successful
non-null, non-array load of a path that passed the cycle and ownership
checks: its path was not in the initial chain and was not owned by a
different reference key. -/
theorem loadFilesLoop_sources (env : Env) (gk : GlobTypeKey) (files : List String) :
    ∀ (visited : Option (List String)) (s : LoaderState),
    ∀ ld ∈ (loadFilesLoop env gk files visited s).1,
      env.loadConfigFile ld.source = some ld.data ∧
      ld.data ≠ JSON.null ∧ (∀ l, ld.data ≠ JSON.arr l) ∧
      (∀ v, visited = some v → ld.source ∉ v) ∧
      (∀ p k1, jsGet s.pathsToGlobKey p = some k1 → k1 ≠ gk → ld.source ≠ p) := by
  induction files with
  | nil => intro visited s ld hld; simp [loadFilesLoop] at hld
  | cons f rest ih =>
      intro visited s ld hld
      by_cases hc : visitedHas visited f = true
      · have hstep : loadFilesLoop env gk (f :: rest) visited s =
            loadFilesLoop env gk rest visited (pushCycle s f (visited.getD [])) := by
          simp [loadFilesLoop, hc]
        rw [hstep] at hld
        exact ih visited (pushCycle s f (visited.getD [])) ld hld
      · obtain ⟨_, _, hout⟩ := loadFilesLoop_cons_step env gk f rest visited s hc
        rw [hout] at hld
        rcases loadOnePath_cases env gk f visited s with ⟨heq, hclaim⟩ |
          ⟨k1, hown, hk, heq⟩
        · obtain ⟨aw, hs1, hv1⟩ := claimAndLoad_state env gk f visited s
          rcases List.mem_append.mp hld with hld1 | hld2
          · -- the head payload
            rw [heq] at hld1
            rcases hpl : (claimAndLoad env gk f visited s).1 with _ | ld0
            · rw [hpl] at hld1; simp at hld1
            · rw [hpl] at hld1
              simp at hld1
              subst hld1
              obtain ⟨hsrc, hdata, hnn, hna⟩ :=
                claimAndLoad_payload env gk f visited s hpl
              refine ⟨hsrc ▸ hdata, hnn, hna, ?_, ?_⟩
              · intro v hv
                rw [hsrc]
                exact visited_not_mem hc v hv
              · intro p k1 hp hk
                rw [hsrc]
                intro hfp
                subst hfp
                rcases hclaim with hcl | hcl
                · rw [hcl] at hp; cases hp
                · rw [hcl] at hp
                  exact hk (Option.some.inj hp).symm
          · -- a tail payload
            rw [heq, hs1, hv1] at hld2
            obtain ⟨h1, h2, h3, h4, h5⟩ := ih (visitedAdd visited f) _ ld hld2
            refine ⟨h1, h2, h3, ?_, ?_⟩
            · intro v hv
              have hva : visitedAdd visited f = some (addUnique v f) := by rw [hv]; rfl
              exact fun hm => h4 (addUnique v f) hva (mem_addUnique_of_mem f hm)
            · intro p k1 hp hk
              apply h5 p k1 _ hk
              show jsGet (jsSet s.pathsToGlobKey f gk) p = some k1
              by_cases hpf : p = f
              · subst hpf
                rcases hclaim with hcl | hcl
                · rw [hcl] at hp; cases hp
                · rw [hcl] at hp
                  exact absurd (Option.some.inj hp).symm hk
              · rw [jsGet_jsSet_ne s.pathsToGlobKey gk (Ne.symm hpf)]
                exact hp
        · rw [heq] at hld
          simp only [Option.toList_none, List.nil_append] at hld
          exact ih visited (pushMultipleGlobKeys s f k1 gk) ld hld

/-- A matched path already present in the active chain gets a cycle
diagnostic whose chain is a snapshot of the (grown) chain, containing the
initial chain and the path itself. -/
theorem loadFilesLoop_cycle_recorded (env : Env) (gk : GlobTypeKey) (files : List String) :
    ∀ (v : List String) (s : LoaderState) (p : String), p ∈ v → p ∈ files →
    ∃ chain, (∀ x, x ∈ v → x ∈ chain) ∧ p ∈ chain ∧
      CycleWarning.mk p chain ∈
        (loadFilesLoop env gk files (some v) s).2.2.warnings.cycles := by
  induction files with
  | nil => intro v s p _ hp; simp at hp
  | cons f rest ih =>
      intro v s p hpv hp
      by_cases hc : visitedHas (some v) f = true
      · have hstep : loadFilesLoop env gk (f :: rest) (some v) s =
            loadFilesLoop env gk rest (some v) (pushCycle s f v) := by
          simp [loadFilesLoop, hc]
        rw [hstep]
        by_cases hfp : f = p
        · subst hfp
          refine ⟨v, fun x hx => hx, hpv, ?_⟩
          have hmem : CycleWarning.mk f v ∈ (pushCycle s f v).warnings.cycles :=
            List.mem_append_right _ (List.mem_singleton.mpr rfl)
          exact (loadFilesLoop_mono env gk rest (some v) (pushCycle s f v)).1 _ hmem
        · have hpr : p ∈ rest := by
            rcases List.mem_cons.mp hp with h1 | h1
            · exact absurd h1.symm hfp
            · exact h1
          exact ih v (pushCycle s f v) p hpv hpr
      · have hfp : f ≠ p := by
          intro hfe
          subst hfe
          exact visited_not_mem hc v rfl hpv
        have hpr : p ∈ rest := by
          rcases List.mem_cons.mp hp with h1 | h1
          · exact absurd h1.symm hfp
          · exact h1
        obtain ⟨hv0, hs0, _⟩ := loadFilesLoop_cons_step env gk f rest (some v) s hc
        rcases loadOnePath_cases env gk f (some v) s with ⟨heq, _⟩ |
          ⟨k1, _, _, heq⟩
        · obtain ⟨aw, hs1, hv1⟩ := claimAndLoad_state env gk f (some v) s
          rw [heq, hs1, hv1] at hs0
          have hva : visitedAdd (some v) f = some (addUnique v f) := rfl
          rw [hva] at hs0
          obtain ⟨chain, hsub, hpc, hmem⟩ := ih (addUnique v f) _ p
            (mem_addUnique_of_mem f hpv) hpr
          rw [hs0]
          exact ⟨chain, fun x hx => hsub x (mem_addUnique_of_mem f hx), hpc, hmem⟩
        · rw [heq] at hs0
          rw [hs0]
          exact ih v (pushMultipleGlobKeys s f k1 gk) p hpv hpr

/-- A matched path already owned by a different reference key gets a
cross-ownership diagnostic naming the first-claiming key and the current
key. -/
theorem loadFilesLoop_multi_recorded (env : Env) (gk : GlobTypeKey) (files : List String) :
    ∀ (visited : Option (List String)) (s : LoaderState) (p : String) (k1 : GlobTypeKey),
    jsGet s.pathsToGlobKey p = some k1 → k1 ≠ gk →
    (∀ v, visited = some v → p ∉ v) → p ∈ files →
    MultipleGlobKeysWarning.mk p k1 gk ∈
      (loadFilesLoop env gk files visited s).2.2.warnings.multipleGlobKeys := by
  induction files with
  | nil => intro visited s p k1 _ _ _ hp; simp at hp
  | cons f rest ih =>
      intro visited s p k1 hown hk hnv hp
      by_cases hc : visitedHas visited f = true
      · have hstep : loadFilesLoop env gk (f :: rest) visited s =
            loadFilesLoop env gk rest visited (pushCycle s f (visited.getD [])) := by
          simp [loadFilesLoop, hc]
        rw [hstep]
        have hfp : f ≠ p := by
          intro hfe
          subst hfe
          cases visited with
          | none => simp [visitedHas] at hc
          | some v => exact absurd (List.mem_of_elem_eq_true hc) (hnv v rfl)
        have hpr : p ∈ rest := by
          rcases List.mem_cons.mp hp with h1 | h1
          · exact absurd h1.symm hfp
          · exact h1
        exact ih visited (pushCycle s f (visited.getD [])) p k1 hown hk hnv hpr
      · obtain ⟨hv0, hs0, _⟩ := loadFilesLoop_cons_step env gk f rest visited s hc
        by_cases hfp : f = p
        · subst hfp
          rcases loadOnePath_cases env gk f visited s with ⟨_, hclaim⟩ |
            ⟨k1', hown', hk', heq⟩
          · rcases hclaim with hcl | hcl
            · rw [hcl] at hown; cases hown
            · rw [hcl] at hown
              exact absurd (Option.some.inj hown).symm hk
          · rw [hown'] at hown
            have hkk : k1' = k1 := Option.some.inj hown
            rw [hkk] at heq
            rw [heq] at hs0
            rw [hs0]
            have hmem : MultipleGlobKeysWarning.mk f k1 gk ∈
                (pushMultipleGlobKeys s f k1 gk).warnings.multipleGlobKeys :=
              List.mem_append_right _ (List.mem_singleton.mpr rfl)
            exact (loadFilesLoop_mono env gk rest visited
              (pushMultipleGlobKeys s f k1 gk)).2.1 _ hmem
        · have hpr : p ∈ rest := by
            rcases List.mem_cons.mp hp with h1 | h1
            · exact absurd h1.symm hfp
            · exact h1
          rcases loadOnePath_cases env gk f visited s with ⟨heq, hclaim⟩ |
            ⟨k1', hown', hk', heq⟩
          · obtain ⟨aw, hs1, hv1⟩ := claimAndLoad_state env gk f visited s
            rw [heq, hs1, hv1] at hs0
            rw [hs0]
            apply ih (visitedAdd visited f) _ p k1 _ hk
            · intro v hv
              cases visited with
              | none => simp [visitedAdd] at hv
              | some v0 =>
                  have : addUnique v0 f = v := by
                    simpa [visitedAdd] using hv
                  rw [← this]
                  intro hm
                  rcases mem_of_mem_addUnique hm with hm1 | hm1
                  · exact hnv v0 rfl hm1
                  · exact hfp hm1.symm
            · exact hpr
            · show jsGet (jsSet s.pathsToGlobKey f gk) p = some k1
              rw [jsGet_jsSet_ne s.pathsToGlobKey gk (Ne.symm (fun h => hfp h.symm))]
              exact hown
          · rw [heq] at hs0
            rw [hs0]
            exact ih visited (pushMultipleGlobKeys s f k1' gk) p k1 hown hk hnv hpr

/-- A matched path that passes the cycle and ownership checks but loads an
array-shaped payload gets an array-value diagnostic. -/
theorem loadFilesLoop_array_recorded (env : Env) (gk : GlobTypeKey) (files : List String) :
    ∀ (visited : Option (List String)) (s : LoaderState) (p : String),
    (∀ v, visited = some v → p ∉ v) →
    (jsGet s.pathsToGlobKey p = none ∨ jsGet s.pathsToGlobKey p = some gk) →
    (∃ l, env.loadConfigFile p = some (JSON.arr l)) → p ∈ files →
    ArrayValueWarning.mk p ∈
      (loadFilesLoop env gk files visited s).2.2.warnings.arrayValues := by
  induction files with
  | nil => intro visited s p _ _ _ hp; simp at hp
  | cons f rest ih =>
      intro visited s p hnv hown hl hp
      by_cases hc : visitedHas visited f = true
      · have hstep : loadFilesLoop env gk (f :: rest) visited s =
            loadFilesLoop env gk rest visited (pushCycle s f (visited.getD [])) := by
          simp [loadFilesLoop, hc]
        rw [hstep]
        have hfp : f ≠ p := by
          intro hfe
          subst hfe
          cases visited with
          | none => simp [visitedHas] at hc
          | some v => exact absurd (List.mem_of_elem_eq_true hc) (hnv v rfl)
        have hpr : p ∈ rest := by
          rcases List.mem_cons.mp hp with h1 | h1
          · exact absurd h1.symm hfp
          · exact h1
        exact ih visited (pushCycle s f (visited.getD [])) p hnv hown hl hpr
      · obtain ⟨hv0, hs0, _⟩ := loadFilesLoop_cons_step env gk f rest visited s hc
        by_cases hfp : f = p
        · subst hfp
          rcases loadOnePath_cases env gk f visited s with ⟨heq, _⟩ |
            ⟨k1', hown', hk', _⟩
          · obtain ⟨l, hla⟩ := hl
            obtain ⟨hnone, harr⟩ := claimAndLoad_array env gk f visited s hla
            rw [heq] at hs0
            rw [hs0]
            have hmem : ArrayValueWarning.mk f ∈
                (claimAndLoad env gk f visited s).2.2.warnings.arrayValues := by
              rw [harr]
              exact List.mem_append_right _ (List.mem_singleton.mpr rfl)
            exact (loadFilesLoop_mono env gk rest _ _).2.2.1 _ hmem
          · rcases hown with h1 | h1
            · rw [hown'] at h1; cases h1
            · rw [hown'] at h1
              exact absurd (Option.some.inj h1) hk'
        · have hpr : p ∈ rest := by
            rcases List.mem_cons.mp hp with h1 | h1
            · exact absurd h1.symm hfp
            · exact h1
          rcases loadOnePath_cases env gk f visited s with ⟨heq, hclaim⟩ |
            ⟨k1', hown', hk', heq⟩
          · obtain ⟨aw, hs1, hv1⟩ := claimAndLoad_state env gk f visited s
            rw [heq, hs1, hv1] at hs0
            rw [hs0]
            apply ih (visitedAdd visited f) _ p _ _ hl hpr
            · intro v hv
              cases visited with
              | none => simp [visitedAdd] at hv
              | some v0 =>
                  have hva : addUnique v0 f = v := by simpa [visitedAdd] using hv
                  rw [← hva]
                  intro hm
                  rcases mem_of_mem_addUnique hm with hm1 | hm1
                  · exact hnv v0 rfl hm1
                  · exact hfp hm1.symm
            · show jsGet (jsSet s.pathsToGlobKey f gk) p = none ∨
                jsGet (jsSet s.pathsToGlobKey f gk) p = some gk
              rw [jsGet_jsSet_ne s.pathsToGlobKey gk (Ne.symm (fun h => hfp h.symm))]
              exact hown
          · rw [heq] at hs0
            rw [hs0]
            exact ih visited (pushMultipleGlobKeys s f k1' gk) p hnv hown hl hpr

/-- A matched path that passes the cycle and ownership checks is claimed in
both ownership maps, whatever the load outcome. -/
theorem loadFilesLoop_claim_recorded (env : Env) (gk : GlobTypeKey) (files : List String) :
    ∀ (visited : Option (List String)) (s : LoaderState) (p : String),
    (∀ v, visited = some v → p ∉ v) →
    (jsGet s.pathsToGlobKey p = none ∨ jsGet s.pathsToGlobKey p = some gk) →
    p ∈ files →
    jsGet (loadFilesLoop env gk files visited s).2.2.pathsToGlobKey p = some gk ∧
    p ∈ (loadFilesLoop env gk files visited s).2.2.globKeyToPaths gk := by
  induction files with
  | nil => intro visited s p _ _ hp; simp at hp
  | cons f rest ih =>
      intro visited s p hnv hown hp
      by_cases hc : visitedHas visited f = true
      · have hstep : loadFilesLoop env gk (f :: rest) visited s =
            loadFilesLoop env gk rest visited (pushCycle s f (visited.getD [])) := by
          simp [loadFilesLoop, hc]
        rw [hstep]
        have hfp : f ≠ p := by
          intro hfe
          subst hfe
          cases visited with
          | none => simp [visitedHas] at hc
          | some v => exact absurd (List.mem_of_elem_eq_true hc) (hnv v rfl)
        have hpr : p ∈ rest := by
          rcases List.mem_cons.mp hp with h1 | h1
          · exact absurd h1.symm hfp
          · exact h1
        exact ih visited (pushCycle s f (visited.getD [])) p hnv hown hpr
      · obtain ⟨hv0, hs0, _⟩ := loadFilesLoop_cons_step env gk f rest visited s hc
        by_cases hfp : f = p
        · subst hfp
          rcases loadOnePath_cases env gk f visited s with ⟨heq, _⟩ |
            ⟨k1', hown', hk', _⟩
          · obtain ⟨aw, hs1, hv1⟩ := claimAndLoad_state env gk f visited s
            rw [heq, hs1, hv1] at hs0
            rw [hs0]
            obtain ⟨_, _, _, m4, m5, _⟩ := loadFilesLoop_mono env gk rest
              (visitedAdd visited f) _
            constructor
            · exact m4 f gk (jsGet_jsSet_self s.pathsToGlobKey f gk)
            · apply m5 gk f
              show f ∈ (if gk = gk then addUnique (s.globKeyToPaths gk) f
                else s.globKeyToPaths gk)
              rw [if_pos rfl]
              exact mem_addUnique_self _ f
          · rcases hown with h1 | h1
            · rw [hown'] at h1; cases h1
            · rw [hown'] at h1
              exact absurd (Option.some.inj h1) hk'
        · have hpr : p ∈ rest := by
            rcases List.mem_cons.mp hp with h1 | h1
            · exact absurd h1.symm hfp
            · exact h1
          rcases loadOnePath_cases env gk f visited s with ⟨heq, hclaim⟩ |
            ⟨k1', hown', hk', heq⟩
          · obtain ⟨aw, hs1, hv1⟩ := claimAndLoad_state env gk f visited s
            rw [heq, hs1, hv1] at hs0
            rw [hs0]
            apply ih (visitedAdd visited f) _ p _ _ hpr
            · intro v hv
              cases visited with
              | none => simp [visitedAdd] at hv
              | some v0 =>
                  have hva : addUnique v0 f = v := by simpa [visitedAdd] using hv
                  rw [← hva]
                  intro hm
                  rcases mem_of_mem_addUnique hm with hm1 | hm1
                  · exact hnv v0 rfl hm1
                  · exact hfp hm1.symm
            · show jsGet (jsSet s.pathsToGlobKey f gk) p = none ∨
                jsGet (jsSet s.pathsToGlobKey f gk) p = some gk
              rw [jsGet_jsSet_ne s.pathsToGlobKey gk (Ne.symm (fun h => hfp h.symm))]
              exact hown
          · rw [heq] at hs0
            rw [hs0]
            exact ih visited (pushMultipleGlobKeys s f k1' gk) p hnv hown hpr

theorem mem_insertSorted (x y : String) (l : List String) :
    y ∈ insertSorted x l ↔ y = x ∨ y ∈ l := by
  induction l with
  | nil => simp [insertSorted]
  | cons a as ih =>
      by_cases h : strLtb a x = true
      · simp only [insertSorted, h, if_pos, List.mem_cons, ih]
        tauto
      · simp only [insertSorted, h, Bool.false_eq_true, if_false, List.mem_cons]

theorem mem_sortPaths (p : String) (l : List String) : p ∈ sortPaths l ↔ p ∈ l := by
  induction l with
  | nil => simp [sortPaths]
  | cons a as ih => simp [sortPaths, mem_insertSorted, ih]

/-
Pattern-set machinery: the process-wide pattern set only ever receives
non-negated string patterns (loader.ts lines 281-285), and no other
operation touches it.
-/

theorem addGlobPatterns_patOk {s : LoaderState} (globs : List JSON) (h : PatOk s) :
    PatOk (addGlobPatterns s globs) := by
  induction globs generalizing s with
  | nil => exact h
  | cons g rest ih =>
      cases g with
      | str p =>
          by_cases hb : startsWithBang p = true
          · simpa [addGlobPatterns, hb] using ih h
          · have h' : PatOk { s with globPatterns := addUnique s.globPatterns p } := by
              intro q hq
              rcases mem_of_mem_addUnique hq with hq1 | hq1
              · exact h q hq1
              · subst hq1
                exact Bool.not_eq_true _ ▸ hb
            simpa [addGlobPatterns, hb] using ih h'
      | null => simpa [addGlobPatterns] using ih h
      | bool b => simpa [addGlobPatterns] using ih h
      | num m => simpa [addGlobPatterns] using ih h
      | arr l => simpa [addGlobPatterns] using ih h
      | obj e => simpa [addGlobPatterns] using ih h

theorem loadFilesLoop_patterns (env : Env) (gk : GlobTypeKey) (files : List String) :
    ∀ (visited : Option (List String)) (s : LoaderState),
    (loadFilesLoop env gk files visited s).2.2.globPatterns = s.globPatterns := by
  induction files with
  | nil => intro visited s; rfl
  | cons f rest ih =>
      intro visited s
      by_cases hc : visitedHas visited f = true
      · have hstep : loadFilesLoop env gk (f :: rest) visited s =
            loadFilesLoop env gk rest visited (pushCycle s f (visited.getD [])) := by
          simp [loadFilesLoop, hc]
        rw [hstep]
        exact ih visited (pushCycle s f (visited.getD []))
      · obtain ⟨_, hs0, _⟩ := loadFilesLoop_cons_step env gk f rest visited s hc
        rw [hs0]
        rcases loadOnePath_cases env gk f visited s with ⟨heq, _⟩ | ⟨k1, _, _, heq⟩
        · obtain ⟨aw, hs1, hv1⟩ := claimAndLoad_state env gk f visited s
          rw [heq, hs1, hv1]
          exact ih (visitedAdd visited f) _
        · rw [heq]
          exact ih visited (pushMultipleGlobKeys s f k1 gk)

theorem loadFilesFromGlobs_patterns (env : Env) (globs : List JSON) (gk : GlobTypeKey)
    (visited : Option (List String)) (s : LoaderState) :
    (loadFilesFromGlobs env globs gk visited s).2.2.globPatterns = s.globPatterns := by
  unfold loadFilesFromGlobs
  exact loadFilesLoop_patterns env gk _ visited _

theorem importFromGlobKey_patOk (env : Env) (config : List (String × JSON))
    (gk : GlobTypeKey) (t : String) (bsh : Bool) (vis : Option (List String))
    {s : LoaderState} (h : PatOk s) :
    PatOk (importFromGlobKey env config gk t bsh vis s).2.2 := by
  unfold importFromGlobKey
  rcases hv : jsGet config gk.toKeyString with _ | v
  · exact h
  · cases v with
    | arr globs =>
        intro p hp
        rw [loadFilesFromGlobs_patterns] at hp
        exact addGlobPatterns_patOk globs h p hp
    | null => exact h
    | bool b => exact h
    | num m => exact h
    | str t2 => exact h
    | obj e => exact h

theorem walkerPatOk (env : Env) (fuel : Nat) :
    (∀ j vis s, PatOk s → PatOk (processInputsKey env fuel j vis s).2.2) ∧
    (∀ l vis s, PatOk s → PatOk (processInputsEntries env fuel l vis s).2.2) ∧
    (∀ j vis s, PatOk s → PatOk (processOneInput env fuel j vis s).2.2) ∧
    (∀ l vl s, PatOk s → PatOk (processStructureValuesList env fuel l vl s).2.2) ∧
    (∀ j vl s, PatOk s → PatOk (processStructureValue env fuel j vl s).2.2) ∧
    (∀ j vis s, PatOk s → PatOk (processStructuresKey env fuel j vis s).2.2) ∧
    (∀ l vis s, PatOk s → PatOk (processStructuresEntries env fuel l vis s).2.2) ∧
    (∀ j vis s, PatOk s → PatOk (processOneStructure env fuel j vis s).2.2) := by
  induction fuel with
  | zero =>
      exact ⟨fun _ _ _ h => h, fun _ _ _ h => h, fun _ _ _ h => h, fun _ _ _ h => h,
        fun _ _ _ h => h, fun _ _ _ h => h, fun _ _ _ h => h, fun _ _ _ h => h⟩
  | succ n ih =>
      obtain ⟨ihPIK, ihPIE, ihPOI, ihPSVL, ihPSV, ihPSK, ihPSE, ihPOS⟩ := ih
      refine ⟨?_, ?_, ?_, ?_, ?_, ?_, ?_, ?_⟩
      · intro j vis s h
        cases j with
        | obj entries => simpa [processInputsKey] using ihPIE entries vis s h
        | null => exact h
        | bool b => exact h
        | num m => exact h
        | str t => exact h
        | arr l => exact h
      · intro l vis s h
        cases l with
        | nil => exact h
        | cons hd t =>
            obtain ⟨k, v⟩ := hd
            simpa [processInputsEntries] using ihPIE t _ _ (ihPOI v vis s h)
      · intro j vis s h
        cases j with
        | obj ive =>
            simp only [processOneInput]
            rcases hopt : jsGet ive "options" with _ | ov
            · simpa [hopt] using h
            · cases ov with
              | obj oe =>
                  rcases hstr : jsGet oe "structures" with _ | sv
                  · simpa [hopt, hstr] using h
                  · cases sv with
                    | obj se =>
                        by_cases ht : truthyOpt (jsGet se "values_from_glob") = true
                        · have h1 : PatOk (importFromGlobKey env se
                              GlobTypeKey.valuesFromGlob "values" true
                              (some (vis.getD [])) s).2.2 :=
                            importFromGlobKey_patOk env se GlobTypeKey.valuesFromGlob
                              "values" true (some (vis.getD [])) h
                          rcases hvals : jsGet (importFromGlobKey env se
                              GlobTypeKey.valuesFromGlob "values" true
                              (some (vis.getD [])) s).1 "values" with _ | vv
                          · simpa [hopt, hstr, ht, hvals] using h1
                          · cases vv with
                            | arr values =>
                                simpa [hopt, hstr, ht, hvals] using ihPSVL values _ _ h1
                            | null => simpa [hopt, hstr, ht, hvals] using h1
                            | bool b => simpa [hopt, hstr, ht, hvals] using h1
                            | num m => simpa [hopt, hstr, ht, hvals] using h1
                            | str t => simpa [hopt, hstr, ht, hvals] using h1
                            | obj oo => simpa [hopt, hstr, ht, hvals] using h1
                        · rcases hvals : jsGet se "values" with _ | vv
                          · simpa [hopt, hstr, ht, hvals] using h
                          · cases vv with
                            | arr values =>
                                simpa [hopt, hstr, ht, hvals] using ihPSVL values _ _ h
                            | null => simpa [hopt, hstr, ht, hvals] using h
                            | bool b => simpa [hopt, hstr, ht, hvals] using h
                            | num m => simpa [hopt, hstr, ht, hvals] using h
                            | str t => simpa [hopt, hstr, ht, hvals] using h
                            | obj oo => simpa [hopt, hstr, ht, hvals] using h
                    | null => simpa [hopt, hstr] using h
                    | bool b => simpa [hopt, hstr] using h
                    | num m => simpa [hopt, hstr] using h
                    | str t => simpa [hopt, hstr] using h
                    | arr l2 => simpa [hopt, hstr] using h
              | null => simpa [hopt] using h
              | bool b => simpa [hopt] using h
              | num m => simpa [hopt] using h
              | str t => simpa [hopt] using h
              | arr l2 => simpa [hopt] using h
        | null => exact h
        | bool b => exact h
        | num m => exact h
        | str t => exact h
        | arr l => exact h
      · intro l vl s h
        cases l with
        | nil => exact h
        | cons hd t =>
            simpa [processStructureValuesList] using ihPSVL t _ _ (ihPSV hd vl s h)
      · intro j vl s h
        cases j with
        | obj sve =>
            simp only [processStructureValue]
            by_cases ht : truthyOpt (jsGet sve "_inputs_from_glob") = true
            · have h1 : PatOk (importFromGlobKey env sve GlobTypeKey.inputsFromGlob
                  "_inputs" false (some vl) s).2.2 :=
                importFromGlobKey_patOk env sve GlobTypeKey.inputsFromGlob "_inputs"
                  false (some vl) h
              rcases hin : jsGet (importFromGlobKey env sve GlobTypeKey.inputsFromGlob
                  "_inputs" false (some vl) s).1 "_inputs" with _ | iv
              · simpa [ht, hin] using h1
              · by_cases hiv : iv.truthy = true
                · simpa [ht, hin, hiv] using ihPIK iv _ _ h1
                · simpa [ht, hin, hiv] using h1
            · rcases hin : jsGet sve "_inputs" with _ | iv
              · simpa [ht, hin] using h
              · by_cases hiv : iv.truthy = true
                · simpa [ht, hin, hiv] using ihPIK iv _ _ h
                · simpa [ht, hin, hiv] using h
        | null => exact h
        | bool b => exact h
        | num m => exact h
        | str t => exact h
        | arr l => exact h
      · intro j vis s h
        cases j with
        | obj entries => simpa [processStructuresKey] using ihPSE entries vis s h
        | null => exact h
        | bool b => exact h
        | num m => exact h
        | str t => exact h
        | arr l => exact h
      · intro l vis s h
        cases l with
        | nil => exact h
        | cons hd t =>
            obtain ⟨k, v⟩ := hd
            simpa [processStructuresEntries] using ihPSE t _ _ (ihPOS v vis s h)
      · intro j vis s h
        cases j with
        | obj se =>
            simp only [processOneStructure]
            have h1 : PatOk (importFromGlobKey env se GlobTypeKey.valuesFromGlob
                "values" true (some (vis.getD [])) s).2.2 :=
              importFromGlobKey_patOk env se GlobTypeKey.valuesFromGlob "values" true
                (some (vis.getD [])) h
            rcases hvals : jsGet (importFromGlobKey env se GlobTypeKey.valuesFromGlob
                "values" true (some (vis.getD [])) s).1 "values" with _ | vv
            · simpa [hvals] using h1
            · cases vv with
              | arr values => simpa [hvals] using ihPSVL values _ _ h1
              | null => simpa [hvals] using h1
              | bool b => simpa [hvals] using h1
              | num m => simpa [hvals] using h1
              | str t => simpa [hvals] using h1
              | obj oo => simpa [hvals] using h1
        | null => exact h
        | bool b => exact h
        | num m => exact h
        | str t => exact h
        | arr l => exact h

theorem runInputsKeyAt_patOk (env : Env) (fuel : Nat) (key : String)
    (cs : List (String × JSON) × LoaderState) (h : PatOk cs.2) :
    PatOk (runInputsKeyAt env fuel key cs).2 := by
  unfold runInputsKeyAt
  rcases hv : jsGet cs.1 key with _ | v
  · exact h
  · exact (walkerPatOk env fuel).1 v none cs.2 h

theorem runStructuresKeyAt_patOk (env : Env) (fuel : Nat) (key : String)
    (cs : List (String × JSON) × LoaderState) (h : PatOk cs.2) :
    PatOk (runStructuresKeyAt env fuel key cs).2 := by
  unfold runStructuresKeyAt
  rcases hv : jsGet cs.1 key with _ | v
  · exact h
  · exact (walkerPatOk env fuel).2.2.2.2.2.1 v none cs.2 h

theorem importAt_patOk (env : Env) (gk : GlobTypeKey) (t : String)
    (cs : List (String × JSON) × LoaderState) (h : PatOk cs.2) :
    PatOk (importAt env gk t cs).2 :=
  importFromGlobKey_patOk env cs.1 gk t false none h

theorem processOneSchema_patOk (env : Env) (fuel : Nat) (v : JSON)
    {s : LoaderState} (h : PatOk s) : PatOk (processOneSchema env fuel v s).2 := by
  cases v with
  | obj sve =>
      exact runStructuresKeyAt_patOk env fuel "_structures" _
        (runInputsKeyAt_patOk env fuel "_inputs" _
          (importAt_patOk env GlobTypeKey.structuresFromGlob "_structures" _
            (importAt_patOk env GlobTypeKey.inputsFromGlob "_inputs" (sve, s) h)))
  | null => exact h
  | bool b => exact h
  | num m => exact h
  | str t => exact h
  | arr l => exact h

theorem processSchemaEntries_patOk (env : Env) (fuel : Nat) (l : List (String × JSON)) :
    ∀ {s : LoaderState}, PatOk s → PatOk (processSchemaEntries env fuel l s).2 := by
  induction l with
  | nil => exact fun h => h
  | cons hd t ih =>
      intro s h
      exact ih (processOneSchema_patOk env fuel hd.2 h)

theorem processSchemas_patOk (env : Env) (fuel : Nat)
    (cs : List (String × JSON) × LoaderState) (h : PatOk cs.2) :
    PatOk (processSchemas env fuel cs).2 := by
  unfold processSchemas
  rcases hv : jsGet cs.1 "schemas" with _ | v
  · exact h
  · cases v with
    | obj schemaEntries => exact processSchemaEntries_patOk env fuel schemaEntries h
    | null => exact h
    | bool b => exact h
    | num m => exact h
    | str t => exact h
    | arr l => exact h

theorem processOneCollection_patOk (env : Env) (fuel : Nat) (key : String)
    (cs : List (String × JSON) × LoaderState) (h : PatOk cs.2) :
    PatOk (processOneCollection env fuel key cs).2 := by
  rcases hv : jsGet cs.1 "collections_config" with _ | v
  · simpa [processOneCollection, hv] using h
  · cases v with
    | obj colEntries =>
        rcases hcol : jsGet colEntries key with _ | cv
        · simpa [processOneCollection, hv, hcol] using h
        · cases cv with
          | obj colConfig =>
              have hr1 : PatOk (if jsHasKey colConfig "schemas_from_glob" = true then
                  importAt env GlobTypeKey.schemasFromGlob "schemas" (colConfig, cs.2)
                  else (colConfig, cs.2)).2 := by
                by_cases hhk : jsHasKey colConfig "schemas_from_glob" = true
                · simpa [hhk] using importAt_patOk env GlobTypeKey.schemasFromGlob
                    "schemas" (colConfig, cs.2) h
                · simpa [hhk] using h
              simpa [processOneCollection, hv, hcol] using
                processSchemas_patOk env fuel _
                  (runStructuresKeyAt_patOk env fuel "_structures" _
                    (runInputsKeyAt_patOk env fuel "_inputs" _
                      (importAt_patOk env GlobTypeKey.structuresFromGlob "_structures" _
                        (importAt_patOk env GlobTypeKey.inputsFromGlob "_inputs" _ hr1))))
          | null => simpa [processOneCollection, hv, hcol] using h
          | bool b => simpa [processOneCollection, hv, hcol] using h
          | num m => simpa [processOneCollection, hv, hcol] using h
          | str t => simpa [processOneCollection, hv, hcol] using h
          | arr l => simpa [processOneCollection, hv, hcol] using h
    | null => simpa [processOneCollection, hv] using h
    | bool b => simpa [processOneCollection, hv] using h
    | num m => simpa [processOneCollection, hv] using h
    | str t => simpa [processOneCollection, hv] using h
    | arr l => simpa [processOneCollection, hv] using h

theorem processCollectionKeys_patOk (env : Env) (fuel : Nat) (keys : List String) :
    ∀ (cs : List (String × JSON) × LoaderState), PatOk cs.2 →
      PatOk (processCollectionKeys env fuel keys cs).2 := by
  induction keys with
  | nil => exact fun cs h => h
  | cons key rest ih =>
      intro cs h
      exact ih _ (processOneCollection_patOk env fuel key cs h)

theorem processCollections_patOk (env : Env) (fuel : Nat)
    (cs : List (String × JSON) × LoaderState) (h : PatOk cs.2) :
    PatOk (processCollections env fuel cs).2 := by
  unfold processCollections
  rcases hv : jsGet cs.1 "collections_config" with _ | v
  · exact h
  · cases v with
    | obj colEntries => exact processCollectionKeys_patOk env fuel _ cs h
    | null => exact h
    | bool b => exact h
    | num m => exact h
    | str t => exact h
    | arr l => exact h

theorem processOneSnippet_patOk (env : Env) (fuel : Nat) (v : JSON)
    {s : LoaderState} (h : PatOk s) : PatOk (processOneSnippet env fuel v s).2 := by
  cases v with
  | obj sve =>
      exact runStructuresKeyAt_patOk env fuel "_structures" _
        (runInputsKeyAt_patOk env fuel "_inputs" _
          (importAt_patOk env GlobTypeKey.structuresFromGlob "_structures" _
            (importAt_patOk env GlobTypeKey.inputsFromGlob "_inputs" (sve, s) h)))
  | null => exact h
  | bool b => exact h
  | num m => exact h
  | str t => exact h
  | arr l => exact h

theorem processSnippetEntries_patOk (env : Env) (fuel : Nat) (l : List (String × JSON)) :
    ∀ {s : LoaderState}, PatOk s → PatOk (processSnippetEntries env fuel l s).2 := by
  induction l with
  | nil => exact fun h => h
  | cons hd t ih =>
      intro s h
      exact ih (processOneSnippet_patOk env fuel hd.2 h)

theorem processSnippets_patOk (env : Env) (fuel : Nat)
    (cs : List (String × JSON) × LoaderState) (h : PatOk cs.2) :
    PatOk (processSnippets env fuel cs).2 := by
  unfold processSnippets
  rcases hv : jsGet cs.1 "_snippets" with _ | v
  · exact h
  · cases v with
    | obj snipEntries =>
        exact processSnippetEntries_patOk env fuel _
          (importFromGlobKey_patOk env snipEntries GlobTypeKey.inputsFromGlob
            "_inputs" false none h)
    | null => exact h
    | bool b => exact h
    | num m => exact h
    | str t => exact h
    | arr l => exact h

set_option maxHeartbeats 2000000 in
theorem mergeConfigurationLoader_patOk (env : Env) (fuel : Nat) (config : JSON) :
    PatOk (mergeConfigurationLoader env fuel config).2 := by
  have hinit : PatOk initState := by intro p hp; simp [initState] at hp
  cases config with
  | obj c0 =>
      let p1 := importAt env GlobTypeKey.snippetsFromGlob "_snippets" (c0, initState)
      have h1 : PatOk p1.2 :=
        importAt_patOk env GlobTypeKey.snippetsFromGlob "_snippets" (c0, initState) hinit
      let p2 := importAt env GlobTypeKey.snippetsImportsFromGlob "_snippets_imports" p1
      have h2 : PatOk p2.2 :=
        importAt_patOk env GlobTypeKey.snippetsImportsFromGlob "_snippets_imports" p1 h1
      let p3 := importAt env GlobTypeKey.snippetsTemplatesFromGlob "_snippets_templates" p2
      have h3 : PatOk p3.2 :=
        importAt_patOk env GlobTypeKey.snippetsTemplatesFromGlob "_snippets_templates" p2 h2
      let p4 := importAt env GlobTypeKey.snippetsDefinitionsFromGlob
        "_snippets_definitions" p3
      have h4 : PatOk p4.2 :=
        importAt_patOk env GlobTypeKey.snippetsDefinitionsFromGlob
          "_snippets_definitions" p3 h3
      let p5 := importAt env GlobTypeKey.collectionsConfigFromGlob "collections_config" p4
      have h5 : PatOk p5.2 :=
        importAt_patOk env GlobTypeKey.collectionsConfigFromGlob "collections_config" p4 h4
      let p6 := importAt env GlobTypeKey.inputsFromGlob "_inputs" p5
      have h6 : PatOk p6.2 :=
        importAt_patOk env GlobTypeKey.inputsFromGlob "_inputs" p5 h5
      let p7 := importAt env GlobTypeKey.structuresFromGlob "_structures" p6
      have h7 : PatOk p7.2 :=
        importAt_patOk env GlobTypeKey.structuresFromGlob "_structures" p6 h6
      let p8 := runInputsKeyAt env fuel "_inputs" p7
      have h8 : PatOk p8.2 := runInputsKeyAt_patOk env fuel "_inputs" p7 h7
      let p9 := runStructuresKeyAt env fuel "_structures" p8
      have h9 : PatOk p9.2 := runStructuresKeyAt_patOk env fuel "_structures" p8 h8
      let p10 := processCollections env fuel p9
      have h10 : PatOk p10.2 := processCollections_patOk env fuel p9 h9
      let p11 := processSnippets env fuel p10
      have h11 : PatOk p11.2 := processSnippets_patOk env fuel p10 h10
      exact h11
  | null => exact hinit
  | bool b => exact hinit
  | num m => exact hinit
  | str t => exact hinit
  | arr l => exact hinit

theorem loadFilesLoop_calls (env : Env) (gk : GlobTypeKey) (files : List String) :
    ∀ (visited : Option (List String)) (s : LoaderState),
    (loadFilesLoop env gk files visited s).2.2.findFilesCalls = s.findFilesCalls := by
  induction files with
  | nil => intro visited s; rfl
  | cons f rest ih =>
      intro visited s
      by_cases hc : visitedHas visited f = true
      · have hstep : loadFilesLoop env gk (f :: rest) visited s =
            loadFilesLoop env gk rest visited (pushCycle s f (visited.getD [])) := by
          simp [loadFilesLoop, hc]
        rw [hstep]
        exact ih visited (pushCycle s f (visited.getD []))
      · obtain ⟨_, hs0, _⟩ := loadFilesLoop_cons_step env gk f rest visited s hc
        rw [hs0]
        rcases loadOnePath_cases env gk f visited s with ⟨heq, _⟩ | ⟨k1, _, _, heq⟩
        · obtain ⟨aw, hs1, hv1⟩ := claimAndLoad_state env gk f visited s
          rw [heq, hs1, hv1]
          exact ih (visitedAdd visited f) _
        · rw [heq]
          exact ih visited (pushMultipleGlobKeys s f k1 gk)

/-- Claim C9: a negated pattern in a reference key's pattern list never
appears in the returned globPatterns list, yet the full raw pattern array,
negations included, is handed verbatim to the findFilesMatchingGlobs
collaborator (observed through the specification-only call log). -/
theorem c9_negated_patterns_excluded :
    (∀ (env : Env) (fuel : Nat) (config : JSON) (p : String),
        p ∈ (mergeConfiguration env fuel config).globPatterns →
        startsWithBang p = false) ∧
    (∀ (env : Env) (config : List (String × JSON)) (gk : GlobTypeKey) (t : String)
        (bsh : Bool) (vis : Option (List String)) (s : LoaderState) (globs : List JSON),
        jsGet config gk.toKeyString = some (JSON.arr globs) →
        (importFromGlobKey env config gk t bsh vis s).2.2.findFilesCalls =
          s.findFilesCalls ++ [globs]) ∧
    (mergeConfiguration fxEnvEmpty 5 fxCfgNeg).globPatterns = ["/c/*.yml"] ∧
    (mergeConfigurationLoader fxEnvEmpty 5 fxCfgNeg).2.findFilesCalls =
      [[JSON.str "/c/*.yml", JSON.str "!/c/draft.yml"]] := by
  refine ⟨?_, ?_, rfl, rfl⟩
  · intro env fuel config p hp
    exact mergeConfigurationLoader_patOk env fuel (deepCopy config) p
      (by simpa [mergeConfiguration] using hp)
  · intro env config gk t bsh vis s globs h
    simp [importFromGlobKey, h, loadFilesFromGlobs, loadFilesLoop_calls,
      addGlobPatterns_calls]

/-- Witness for claim C9: the surviving pattern of the concrete scenario is
not negated, and the call log of one resolved import is the verbatim raw
array. -/
theorem c9_negated_patterns_excluded_witness :
    startsWithBang "/c/*.yml" = false ∧
    (importFromGlobKey fxEnvEmpty
        [("collections_config_from_glob", JSON.arr [JSON.str "g"])]
        GlobTypeKey.collectionsConfigFromGlob "collections_config" false none
        initState).2.2.findFilesCalls =
      initState.findFilesCalls ++ [[JSON.str "g"]] := by
  constructor
  · exact c9_negated_patterns_excluded.1 fxEnvEmpty 5 fxCfgNeg "/c/*.yml" (by decide)
  · exact c9_negated_patterns_excluded.2.1 fxEnvEmpty _
      GlobTypeKey.collectionsConfigFromGlob _ _ _ _ _ (by rfl)

/-- Claim C4: a resolved path already present in the active visitation
chain gets a cycle diagnostic carrying a snapshot of the chain (an ordered
sequence containing the initial chain and the path) and is skipped — it
contributes no payload; in particular, a structure value whose nested input
options reference the glob currently being expanded produces exactly one
cycles diagnostic naming that file, with a chain containing it. -/
theorem c4_cycle_detection :
    (∀ (env : Env) (globs : List JSON) (gk : GlobTypeKey) (v : List String)
        (s : LoaderState) (p : String),
      p ∈ v → p ∈ env.findFilesMatchingGlobs globs →
      (∃ chain, (∀ x, x ∈ v → x ∈ chain) ∧ p ∈ chain ∧
        CycleWarning.mk p chain ∈
          (loadFilesFromGlobs env globs gk (some v) s).2.2.warnings.cycles) ∧
      (∀ ld ∈ (loadFilesFromGlobs env globs gk (some v) s).1, ld.source ≠ p)) ∧
    (mergeConfiguration fxEnvCycle 20 fxCfgCycle).warnings.cycles =
      [⟨"/s/hero.yml", ["/s/hero.yml"]⟩] := by
  refine ⟨?_, rfl⟩
  intro env globs gk v s p hpv hpm
  constructor
  · exact loadFilesLoop_cycle_recorded env gk _ v _ p hpv
      ((mem_sortPaths p _).mpr hpm)
  · intro ld hld he
    have hsrc := loadFilesLoop_sources env gk _ (some v) _ ld hld
    apply hsrc.2.2.2.1 v rfl
    rw [he]
    exact hpv

/-- Witness for claim C4's general part at the concrete cycle fixture. -/
theorem c4_cycle_detection_witness :
    ∃ chain, (∀ x, x ∈ ["/s/hero.yml"] → x ∈ chain) ∧ "/s/hero.yml" ∈ chain ∧
      CycleWarning.mk "/s/hero.yml" chain ∈
        (loadFilesFromGlobs fxEnvCycle [JSON.str "/s/*.yml"]
          GlobTypeKey.valuesFromGlob (some ["/s/hero.yml"])
          initState).2.2.warnings.cycles :=
  ((c4_cycle_detection.1 fxEnvCycle [JSON.str "/s/*.yml"] GlobTypeKey.valuesFromGlob
    ["/s/hero.yml"] initState "/s/hero.yml" (by decide) (by decide))).1

/-- Claim C5: a resolved path already owned by a different reference key is
rejected: a multipleGlobKeys diagnostic naming the first-claiming key and
the current key is recorded, the path contributes no payload, ownership
stays with the first key; and the concrete two-key run yields exactly one
deduplicated diagnostic, with the file merged only under the first key. -/
theorem c5_multiple_glob_keys :
    (∀ (env : Env) (globs : List JSON) (gk : GlobTypeKey)
        (visited : Option (List String)) (s : LoaderState) (p : String)
        (k1 : GlobTypeKey),
      jsGet s.pathsToGlobKey p = some k1 → k1 ≠ gk →
      (∀ v, visited = some v → p ∉ v) → p ∈ env.findFilesMatchingGlobs globs →
      MultipleGlobKeysWarning.mk p k1 gk ∈
        (loadFilesFromGlobs env globs gk visited s).2.2.warnings.multipleGlobKeys ∧
      (∀ ld ∈ (loadFilesFromGlobs env globs gk visited s).1, ld.source ≠ p) ∧
      jsGet (loadFilesFromGlobs env globs gk visited s).2.2.pathsToGlobKey p =
        some k1) ∧
    (mergeConfiguration fxEnvMulti 20 fxCfgMulti).warnings.multipleGlobKeys =
      [⟨"/sh/c.yml", GlobTypeKey.collectionsConfigFromGlob,
        GlobTypeKey.inputsFromGlob⟩] ∧
    (mergeConfiguration fxEnvMulti 20 fxCfgMulti).config =
      JSON.obj [("collections_config", JSON.obj [("test", JSON.obj
        [("type", JSON.str "text"), ("__source__", JSON.str "/sh/c.yml")])]),
        ("_inputs", JSON.obj [])] := by
  refine ⟨?_, rfl, rfl⟩
  intro env globs gk visited s p k1 hown hk hnv hpm
  refine ⟨?_, ?_, ?_⟩
  · exact loadFilesLoop_multi_recorded env gk _ visited _ p k1 hown hk hnv
      ((mem_sortPaths p _).mpr hpm)
  · intro ld hld he
    have hsrc := loadFilesLoop_sources env gk _ visited _ ld hld
    exact hsrc.2.2.2.2 p k1 hown hk he
  · exact (loadFilesLoop_mono env gk _ visited _).2.2.2.1 p k1 hown

/-- Witness for claim C5's general part: a path claimed by the collections
key is rejected when re-resolved for the inputs key. -/
theorem c5_multiple_glob_keys_witness :
    MultipleGlobKeysWarning.mk "/sh/c.yml" GlobTypeKey.collectionsConfigFromGlob
        GlobTypeKey.inputsFromGlob ∈
      (loadFilesFromGlobs fxEnvMulti [JSON.str "/sh/*.yml"]
        GlobTypeKey.inputsFromGlob none
        { initState with pathsToGlobKey :=
            [("/sh/c.yml", GlobTypeKey.collectionsConfigFromGlob)] }
        ).2.2.warnings.multipleGlobKeys :=
  (c5_multiple_glob_keys.1 fxEnvMulti [JSON.str "/sh/*.yml"]
    GlobTypeKey.inputsFromGlob none _ "/sh/c.yml"
    GlobTypeKey.collectionsConfigFromGlob (by rfl) (by decide)
    (fun v hv => by cases hv) (by decide)).1

/-- Claim C6: a fragment whose parsed payload is array-shaped gets an
arrayValues diagnostic and contributes nothing, regardless of the target
shape (the load loop drops the payload before any merge); each concrete
run records the path exactly once after deduplication. -/
theorem c6_array_values :
    (∀ (env : Env) (globs : List JSON) (gk : GlobTypeKey)
        (visited : Option (List String)) (s : LoaderState) (p : String)
        (l : List JSON),
      (∀ v, visited = some v → p ∉ v) →
      (jsGet s.pathsToGlobKey p = none ∨ jsGet s.pathsToGlobKey p = some gk) →
      env.loadConfigFile p = some (JSON.arr l) →
      p ∈ env.findFilesMatchingGlobs globs →
      ArrayValueWarning.mk p ∈
        (loadFilesFromGlobs env globs gk visited s).2.2.warnings.arrayValues ∧
      (∀ ld ∈ (loadFilesFromGlobs env globs gk visited s).1, ld.source ≠ p)) ∧
    (mergeConfiguration fxEnvArrDup 20 fxCfgObjTarget).warnings.arrayValues =
      [⟨"/c/invalid.yml"⟩] ∧
    (mergeConfiguration fxEnvArrDup 20 fxCfgObjTarget).config =
      JSON.obj [("collections_config", JSON.obj [])] ∧
    (mergeConfiguration fxEnvArr 20 fxCfgArrTarget).warnings.arrayValues =
      [⟨"/c/invalid.yml"⟩] ∧
    (mergeConfiguration fxEnvArr 20 fxCfgArrTarget).config =
      JSON.obj [("_structures", JSON.obj [("blocks",
        JSON.obj [("values", JSON.arr [])])])] := by
  refine ⟨?_, rfl, rfl, rfl, rfl⟩
  intro env globs gk visited s p l hnv hown hload hpm
  constructor
  · exact loadFilesLoop_array_recorded env gk _ visited _ p hnv hown ⟨l, hload⟩
      ((mem_sortPaths p _).mpr hpm)
  · intro ld hld he
    have hsrc := loadFilesLoop_sources env gk _ visited _ ld hld
    apply hsrc.2.2.1 l
    have : env.loadConfigFile ld.source = some ld.data := hsrc.1
    rw [he, hload] at this
    exact (Option.some.inj this).symm

/-- Witness for claim C6's general part at a concrete array-shaped file. -/
theorem c6_array_values_witness :
    ArrayValueWarning.mk "/c/invalid.yml" ∈
      (loadFilesFromGlobs fxEnvArr [JSON.str "/c/*.yml"]
        GlobTypeKey.collectionsConfigFromGlob none
        initState).2.2.warnings.arrayValues :=
  (c6_array_values.1 fxEnvArr [JSON.str "/c/*.yml"]
    GlobTypeKey.collectionsConfigFromGlob none initState "/c/invalid.yml"
    [JSON.obj [("a", JSON.num 1)]] (fun v hv => by cases hv) (Or.inl rfl)
    (by rfl) (by decide)).1

theorem claimAndLoad_throw (env : Env) (gk : GlobTypeKey) (f : String)
    (visited : Option (List String)) (s : LoaderState)
    (h : env.loadConfigFile f = none) :
    (claimAndLoad env gk f visited s).2.2.warnings = s.warnings := by
  simp [claimAndLoad, h]

theorem loadFilesLoop_throw (env : Env)
    (henv : ∀ q, env.loadConfigFile q = none) (gk : GlobTypeKey)
    (files : List String) :
    ∀ (visited : Option (List String)) (s : LoaderState),
    (loadFilesLoop env gk files visited s).2.2.warnings.arrayValues =
      s.warnings.arrayValues := by
  induction files with
  | nil => intro visited s; rfl
  | cons f rest ih =>
      intro visited s
      by_cases hc : visitedHas visited f = true
      · have hstep : loadFilesLoop env gk (f :: rest) visited s =
            loadFilesLoop env gk rest visited (pushCycle s f (visited.getD [])) := by
          simp [loadFilesLoop, hc]
        rw [hstep]
        exact ih visited (pushCycle s f (visited.getD []))
      · obtain ⟨_, hs0, _⟩ := loadFilesLoop_cons_step env gk f rest visited s hc
        rw [hs0]
        rcases loadOnePath_cases env gk f visited s with ⟨heq, _⟩ | ⟨k1, _, _, heq⟩
        · rw [heq]
          rw [ih (claimAndLoad env gk f visited s).2.1
            (claimAndLoad env gk f visited s).2.2]
          rw [claimAndLoad_throw env gk f visited s (henv f)]
        · rw [heq]
          exact ih visited (pushMultipleGlobKeys s f k1 gk)

/-- Counterexample to claim C7 as stated: with an always-throwing loader
the configuration is not unchanged at the affected reference key — the
reference key is deleted and the absent target key is created as an empty
object. -/
theorem c7_counterexample :
    (mergeConfiguration fxEnvThrow 10 fxCfgRefOnly).config ≠ fxCfgRefOnly ∧
    (mergeConfiguration fxEnvThrow 10 fxCfgRefOnly).config =
      JSON.obj [("collections_config", JSON.obj [])] := by
  refine ⟨?_, rfl⟩
  intro h
  have h1 : hasGlobKey (mergeConfiguration fxEnvThrow 10 fxCfgRefOnly).config =
      false := rfl
  rw [h] at h1
  have h2 : hasGlobKey fxCfgRefOnly = true := rfl
  rw [h1] at h2
  cases h2

/-- Claim C7 (amended): when loadConfigFile throws for every path,
mergeConfiguration still returns, the failed loads produce no payload and
record no diagnostic, and existing target-key content is kept unchanged;
the reference key is still deleted and an absent target key is still
created as an empty object (see the counterexample). -/
theorem c7_load_errors_swallowed :
    (∀ (env : Env), (∀ q, env.loadConfigFile q = none) →
      ∀ (globs : List JSON) (gk : GlobTypeKey) (visited : Option (List String))
        (s : LoaderState),
      (loadFilesFromGlobs env globs gk visited s).1 = [] ∧
      (loadFilesFromGlobs env globs gk visited s).2.2.warnings.arrayValues =
        s.warnings.arrayValues) ∧
    (mergeConfiguration fxEnvThrow 10 fxCfgWithBase).config =
      JSON.obj [("collections_config",
        JSON.obj [("posts", JSON.obj [("path", JSON.str "p")])])] ∧
    (mergeConfiguration fxEnvThrow 10 fxCfgWithBase).warnings =
      ⟨[], [], []⟩ := by
  refine ⟨?_, rfl, rfl⟩
  intro env henv globs gk visited s
  constructor
  · rw [List.eq_nil_iff_forall_not_mem]
    intro ld hld
    have hsrc := (loadFilesLoop_sources env gk _ visited _ ld hld).1
    rw [henv ld.source] at hsrc
    cases hsrc
  · exact loadFilesLoop_throw env henv gk _ visited _

/-- Witness for claim C7's amended theorem at the throwing fixture. -/
theorem c7_load_errors_swallowed_witness :
    (loadFilesFromGlobs fxEnvThrow [JSON.str "/i/*.yml"]
        GlobTypeKey.collectionsConfigFromGlob none initState).1 = [] ∧
    (loadFilesFromGlobs fxEnvThrow [JSON.str "/i/*.yml"]
        GlobTypeKey.collectionsConfigFromGlob none
        initState).2.2.warnings.arrayValues =
      initState.warnings.arrayValues :=
  c7_load_errors_swallowed.1 fxEnvThrow (fun _ => rfl) [JSON.str "/i/*.yml"]
    GlobTypeKey.collectionsConfigFromGlob none initState

/-- Claim C10: a resolved path that passes the cycle and ownership checks
is claimed in pathsToGlobKey and globKeyToPaths regardless of the load
outcome (the claim precedes the load), so a path whose load throws or
whose payload is array-shaped still appears in both returned maps under
that reference key, and a later resolution under a different key is
rejected with a multipleGlobKeys diagnostic even though the path
contributed nothing to the merged tree. -/
theorem c10_claim_before_load :
    (∀ (env : Env) (globs : List JSON) (gk : GlobTypeKey)
        (visited : Option (List String)) (s : LoaderState) (p : String),
      (∀ v, visited = some v → p ∉ v) →
      (jsGet s.pathsToGlobKey p = none ∨ jsGet s.pathsToGlobKey p = some gk) →
      p ∈ env.findFilesMatchingGlobs globs →
      jsGet (loadFilesFromGlobs env globs gk visited s).2.2.pathsToGlobKey p =
        some gk ∧
      p ∈ (loadFilesFromGlobs env globs gk visited s).2.2.globKeyToPaths gk) ∧
    (mergeConfiguration fxEnvThrowShared 20 fxCfgMulti).pathsToGlobKey =
      [("/sh/c.yml", GlobTypeKey.collectionsConfigFromGlob)] ∧
    (mergeConfiguration fxEnvThrowShared 20 fxCfgMulti).globKeyToPaths
      GlobTypeKey.collectionsConfigFromGlob = ["/sh/c.yml"] ∧
    (mergeConfiguration fxEnvThrowShared 20 fxCfgMulti).warnings.multipleGlobKeys =
      [⟨"/sh/c.yml", GlobTypeKey.collectionsConfigFromGlob,
        GlobTypeKey.inputsFromGlob⟩] ∧
    (mergeConfiguration fxEnvThrowShared 20 fxCfgMulti).config =
      JSON.obj [("collections_config", JSON.obj []), ("_inputs", JSON.obj [])] ∧
    (mergeConfiguration fxEnvArr 20 fxCfgObjTarget).pathsToGlobKey =
      [("/c/invalid.yml", GlobTypeKey.collectionsConfigFromGlob)] ∧
    (mergeConfiguration fxEnvArr 20 fxCfgObjTarget).globKeyToPaths
      GlobTypeKey.collectionsConfigFromGlob = ["/c/invalid.yml"] := by
  refine ⟨?_, rfl, rfl, rfl, rfl, rfl, rfl⟩
  intro env globs gk visited s p hnv hown hpm
  exact loadFilesLoop_claim_recorded env gk _ visited _ p hnv hown
    ((mem_sortPaths p _).mpr hpm)

/-- Witness for claim C10's general part: a path whose load throws is
still claimed in both maps. -/
theorem c10_claim_before_load_witness :
    jsGet (loadFilesFromGlobs fxEnvThrow [JSON.str "/i/*.yml"]
        GlobTypeKey.collectionsConfigFromGlob none
        initState).2.2.pathsToGlobKey "/i/a.yml" =
      some GlobTypeKey.collectionsConfigFromGlob ∧
    "/i/a.yml" ∈ (loadFilesFromGlobs fxEnvThrow [JSON.str "/i/*.yml"]
        GlobTypeKey.collectionsConfigFromGlob none
        initState).2.2.globKeyToPaths GlobTypeKey.collectionsConfigFromGlob :=
  c10_claim_before_load.1 fxEnvThrow [JSON.str "/i/*.yml"]
    GlobTypeKey.collectionsConfigFromGlob none initState "/i/a.yml"
    (fun v hv => by cases hv) (Or.inl rfl) (by decide)

end Loader
